import Mathlib

/-!
# Connection hub of `internal/websocket/hub.go`

A shallow embedding of the hub, its connections and their pumps.

* A `*Client` pointer is a `Handle`; the `Client` objects live in a store (`Hub.heap`).
* A Go channel of `[]byte` with buffer 256 is a `Chan`: its queued payloads, its closed flag, and
  a history variable that records the payloads ever queued. Sending on a closed channel and
  closing a closed channel panic, as in Go.
* `map[*Client]bool` is the list of its keys; Go visits a map in an unspecified order, so every
  `range h.clients` loop takes the order of the visit as an argument `ord`.
* `encoding/json` and the transport (`*websocket.Conn`) are libraries: the codec is a parameter
  (`Json`), the transport is the log of the `WriteMessage` calls made on it.
* The steps of `Hub.Run`, of the fan-out methods and of the pumps are atomic (`Event`); the
  interleaving of a fan-out method with `Hub.Run` inside one step is not modelled.
-/

set_option maxRecDepth 8192

namespace WsHub

/-- The identity of a `*Client` pointer. -/
abbrev Handle := Nat

/-- A serialized message, Go `[]byte`. -/
abbrev Payload := List Nat

/-- The two run-time panics of Go channels that the hub can raise. -/
inductive Panic
  | sendOnClosedChannel
  | closeOfClosedChannel
  deriving DecidableEq, Repr

/-- Capacity of every outbound buffer: `make(chan []byte, 256)` in `ServeWS`. -/
def sendCap : Nat := 256

/-- State of a buffered Go channel `chan []byte` of capacity `sendCap`. -/
structure Chan where
  -- queued payloads, oldest first
  buf : List Payload
  closed : Bool
  -- history variable: every payload a send has queued on the channel, in order;
  -- no operation reads it
  sent : List Payload
  deriving DecidableEq, Repr

/-- The channel returned by `make(chan []byte, 256)`. -/
def Chan.make : Chan := { buf := [], closed := false, sent := [] }

/-- Go `close(ch)`: panics when the channel is already closed. -/
def Chan.close (ch : Chan) : Except Panic Chan :=
  if ch.closed then .error .closeOfClosedChannel else .ok { ch with closed := true }

/-- Go `select { case ch <- m: ... default: ... }`. The result `some ch1` is the send branch
(the payload is queued at the tail), `none` is the `default` branch (the send would block);
a closed channel panics. -/
def Chan.trySend (ch : Chan) (m : Payload) : Except Panic (Option Chan) :=
  if ch.closed then .error .sendOnClosedChannel
  else if ch.buf.length < sendCap then
    .ok (some { ch with buf := ch.buf ++ [m], sent := ch.sent ++ [m] })
  else .ok none

/-- Go `message, ok := <-ch`. The result `none` means the receive blocks (empty open channel);
`some (some m, ch1)` is a received payload, `some (none, ch)` is `ok == false`
(closed and drained). -/
def Chan.recv (ch : Chan) : Option (Option Payload × Chan) :=
  match ch.buf with
  | m :: rest => some (some m, { ch with buf := rest })
  | [] => if ch.closed then some (none, ch) else none

/-- A frame handed to `conn.WriteMessage`: `websocket.TextMessage` with a payload, or
`websocket.CloseMessage` with the empty body. -/
inductive Frame
  | text (data : Payload)
  | close
  deriving DecidableEq, Repr

/-- The transport `*websocket.Conn` as the hub sees it: the `WriteMessage` calls made on it, in
order, each with the outcome the transport gave (`true` = written, `false` = the call returned an
error), and whether `Close` was called. -/
structure Conn where
  calls : List (Frame × Bool)
  closed : Bool
  deriving DecidableEq, Repr

/-- The call `conn.WriteMessage(kind, data)`; `wok` is the outcome given by the transport. -/
def Conn.WriteMessage (conn : Conn) (wok : Bool) (f : Frame) : Conn × Bool :=
  ({ conn with calls := conn.calls ++ [(f, wok)] }, wok)

/-- The call `conn.Close()`. -/
def Conn.Close (conn : Conn) : Conn := { conn with closed := true }

/-- The frames that reached the transport: the calls that did not fail. -/
def Conn.wire (conn : Conn) : List Frame := (conn.calls.filter (fun x => x.2)).map (fun x => x.1)

/-- The Go struct `Client` (its `hub` pointer is the one hub of the model); `writerDone` records
that the goroutine `writePump` of the client has returned. -/
structure Client where
  conn : Conn
  send : Chan
  userID : String
  userType : String
  writerDone : Bool
  deriving DecidableEq, Repr

/-- The client built by `ServeWS`: a new transport and `send: make(chan []byte, 256)`. -/
def Client.fresh (userID userType : String) : Client :=
  { conn := { calls := [], closed := false }, send := Chan.make,
    userID := userID, userType := userType, writerDone := false }

/-- Dynamic content of the `Data interface{}` field. -/
inductive Value
  | null
  | bool (b : Bool)
  | number (n : Int)
  | string (s : String)
  | array (xs : List Value)
  | object (kvs : List (String × Value))

/-- The Go struct `Message` (the envelope). -/
structure Message where
  Type_ : String
  Data : Value
  UserID : String
  UserType : String

/-- The library `encoding/json` on `Message`: `json.Marshal` and `json.Unmarshal`, each `none`
when the call returns an error. -/
structure Json where
  marshal : Message → Option Payload
  unmarshal : Payload → Option Message

/-- State of the hub: the key set of `h.clients`, the store of the `Client` objects the keys
point to, and the next handle that the allocation of a `Client` in `ServeWS` returns. -/
structure Hub where
  clients : List Handle
  heap : Handle → Client
  next : Handle

/-- The hub of `NewHub()`: an empty map. No client is allocated yet. -/
def NewHub : Hub := { clients := [], heap := fun _ => Client.fresh "" "", next := 0 }

/-- Assignment to the `send` channel state of client `c`. -/
def Hub.setSend (h : Hub) (c : Handle) (ch : Chan) : Hub :=
  { h with heap := fun x => if x = c then { h.heap c with send := ch } else h.heap x }

/-- Go `h.clients[client] = true`. -/
def Hub.insert (h : Hub) (c : Handle) : Hub :=
  { h with clients := if c ∈ h.clients then h.clients else c :: h.clients }

/-- Go `delete(h.clients, client)`. -/
def Hub.delete (h : Hub) (c : Handle) : Hub :=
  { h with clients := h.clients.filter (fun x => x ≠ c) }

/-- Case `client := <-h.register` of `Hub.Run`. -/
def Hub.register (c : Handle) (h : Hub) : Hub := h.insert c

/-- Case `client := <-h.unregister` of `Hub.Run`: when present, delete then close. -/
def Hub.unregister (c : Handle) (h : Hub) : Except Panic Hub :=
  if c ∈ h.clients then
    let h1 := h.delete c
    match (h1.heap c).send.close with
    | .error e => .error e
    | .ok ch => .ok (h1.setSend c ch)
  else .ok h

/-- The statement `select { case client.send <- data: default: close(client.send);
delete(h.clients, client) }` shared by the three broadcast loops. -/
def Hub.deliver (data : Payload) (c : Handle) (h : Hub) : Except Panic Hub :=
  match (h.heap c).send.trySend data with
  | .error e => .error e
  | .ok (some ch) => .ok (h.setSend c ch)
  | .ok none =>
    match (h.heap c).send.close with
    | .error e => .error e
    | .ok ch => .ok ((h.setSend c ch).delete c)

/-- Go `for client := range h.clients { body }`, visiting the keys in the order `ord`. A key
deleted before it is reached is not produced. -/
def Hub.rangeClients (body : Handle → Hub → Except Panic Hub) : List Handle → Hub → Except Panic Hub
  | [], h => .ok h
  | c :: rest, h =>
    if c ∈ h.clients then
      match body c h with
      | .error e => .error e
      | .ok h1 => Hub.rangeClients body rest h1
    else Hub.rangeClients body rest h

/-- Case `message := <-h.broadcast` of `Hub.Run`. -/
def Hub.broadcast (ord : List Handle) (message : Payload) (h : Hub) : Except Panic Hub :=
  Hub.rangeClients (fun c h1 => h1.deliver message c) ord h

/-- The method `Hub.BroadcastToType`; a marshalling error is logged and the call returns. -/
def Hub.BroadcastToType (json : Json) (ord : List Handle) (userType : String) (message : Message)
    (h : Hub) : Except Panic Hub :=
  match json.marshal message with
  | none => .ok h
  | some data =>
    Hub.rangeClients
      (fun c h1 => if (h1.heap c).userType = userType then h1.deliver data c else .ok h1) ord h

/-- The method `Hub.BroadcastToUser`; a marshalling error is logged and the call returns. -/
def Hub.BroadcastToUser (json : Json) (ord : List Handle) (userID : String) (message : Message)
    (h : Hub) : Except Panic Hub :=
  match json.marshal message with
  | none => .ok h
  | some data =>
    Hub.rangeClients
      (fun c h1 => if (h1.heap c).userID = userID then h1.deliver data c else .ok h1) ord h

/-- A request received by `Hub.Run` on one of its three channels. -/
inductive Req
  | register (client : Handle)
  | unregister (client : Handle)
  | broadcast (message : Payload)
  deriving DecidableEq, Repr

/-- One iteration of the `for { select { ... } }` loop of `Hub.Run` on the request `r`;
`ord` is the order in which a broadcast visits the map. -/
def Hub.runStep (ord : List Handle) (r : Req) (h : Hub) : Except Panic Hub :=
  match r with
  | .register c => .ok (h.register c)
  | .unregister c => h.unregister c
  | .broadcast message => h.broadcast ord message

/-- The loop of `Hub.Run` on a finite sequence of requests; `sched` gives the order in which the
map is visited in each state. A panic ends the run. -/
def Hub.Run (sched : Hub → List Handle) : List Req → Hub → Except Panic Hub
  | [], h => .ok h
  | r :: rest, h =>
    match h.runStep (sched h) r with
    | .error e => .error e
    | .ok h1 => Hub.Run sched rest h1

/-- The method `Hub.ServeWS`: when the upgrade succeeds, a new client is allocated and sent on
`h.register` (the two pumps are started after `Hub.Run` has received it). -/
def Hub.ServeWS (upgraded : Bool) (userID userType : String) (h : Hub) : Hub :=
  if upgraded then
    Hub.register h.next
      { h with heap := fun x => if x = h.next then Client.fresh userID userType else h.heap x,
               next := h.next + 1 }
  else h

/-- Outcome of `c.conn.ReadMessage()` in `readPump`: an error, or a frame. -/
inductive ReadResult
  | err
  | frame (message : Payload)

/-- What one iteration of the loop of `readPump` does: `stop` leaves the loop (the deferred
function then sends the client on `h.unregister` and closes the transport), `skip` is `continue`,
`submit data` is `c.hub.broadcast <- data`. -/
inductive ReadAction
  | stop
  | skip
  | submit (data : Payload)
  deriving DecidableEq, Repr

/-- The two assignments `msg.UserID = c.userID; msg.UserType = c.userType` of `readPump`. -/
def Client.stamp (c : Client) (msg : Message) : Message :=
  { msg with UserID := c.userID, UserType := c.userType }

/-- One iteration of the loop of `Client.readPump`. -/
def Client.readPumpStep (json : Json) (c : Client) : ReadResult → ReadAction
  | .err => .stop
  | .frame message =>
    match json.unmarshal message with
    | none => .skip
    | some msg =>
      match json.marshal (c.stamp msg) with
      | some data => .submit data
      | none => .skip

/-- One iteration of the loop of `Client.writePump`; `wok` is the outcome of the `WriteMessage`
call, which the loop does not look at. The result `none` means that the goroutine makes no move:
it has returned, or it is blocked on the empty open channel. On `ok == false` it writes the close
frame and returns, which runs the deferred `c.conn.Close()`. -/
def Client.writePumpStep (wok : Bool) (c : Client) : Option Client :=
  if c.writerDone then none
  else
    match c.send.recv with
    | none => none
    | some (none, ch) =>
      some { c with send := ch, conn := (c.conn.WriteMessage wok Frame.close).1.Close,
                    writerDone := true }
    | some (some message, ch) =>
      some { c with send := ch, conn := (c.conn.WriteMessage wok (Frame.text message)).1 }

/-- One scheduling of the goroutine `writePump` of client `c`. -/
def Hub.writePump (c : Handle) (wok : Bool) (h : Hub) : Hub :=
  match (h.heap c).writePumpStep wok with
  | none => h
  | some cl => { h with heap := fun x => if x = c then cl else h.heap x }

/-- The goroutine `writePump` of client `c` scheduled once per element of `woks`. -/
def Hub.writePumpRun (c : Handle) : List Bool → Hub → Hub
  | [], h => h
  | wok :: rest, h => Hub.writePumpRun c rest (h.writePump c wok)

/-- The atomic steps of the system: a call of `ServeWS`, the requests that `Hub.Run` receives
from the pumps, the calls of the fan-out methods, and one iteration of a writer pump. The order
of a map visit and the outcome of a transport write are chosen by the environment. -/
inductive Event
  | serveWS (upgraded : Bool) (userID userType : String)
  | unregister (client : Handle)
  | broadcast (ord : List Handle) (message : Payload)
  | toType (ord : List Handle) (userType : String) (message : Message)
  | toUser (ord : List Handle) (userID : String) (message : Message)
  | writePump (client : Handle) (wok : Bool)

/-- The order of a map visit lists the keys of the map, each once. -/
def Event.enabled : Event → Hub → Prop
  | .broadcast ord _, h => ord.Perm h.clients
  | .toType ord _ _, h => ord.Perm h.clients
  | .toUser ord _ _, h => ord.Perm h.clients
  | _, _ => True

/-- Effect of one atomic step. -/
def Hub.apply (json : Json) (e : Event) (h : Hub) : Except Panic Hub :=
  match e with
  | .serveWS upgraded userID userType => .ok (h.ServeWS upgraded userID userType)
  | .unregister c => h.unregister c
  | .broadcast ord message => h.broadcast ord message
  | .toType ord userType message => h.BroadcastToType json ord userType message
  | .toUser ord userID message => h.BroadcastToUser json ord userID message
  | .writePump c wok => .ok (h.writePump c wok)

/-- The hub goes from the first state to the second by finitely many atomic steps, none of which
panics. -/
inductive Steps (json : Json) : Hub → Hub → Prop
  | refl (h : Hub) : Steps json h h
  | tail {h h1 h2 : Hub} (e : Event) :
      Steps json h h1 → e.enabled h1 → h1.apply json e = .ok h2 → Steps json h h2

/-- States reachable from the hub of `NewHub`. -/
def Reachable (json : Json) (h : Hub) : Prop := Steps json NewHub h

/-- Well-formed hub states: the keys of the map are distinct allocated clients and every member
has an open outbound buffer. Every reachable state is well formed. -/
structure Hub.WF (h : Hub) : Prop where
  nodup : h.clients.Nodup
  alloc : ∀ c ∈ h.clients, c < h.next
  isOpen : ∀ c ∈ h.clients, (h.heap c).send.closed = false

/-- Effect of the `select` statement of `deliver` on an open channel: the payload is queued when
there is room, the channel is closed otherwise. -/
def Chan.offer (ch : Chan) (data : Payload) : Chan :=
  if ch.buf.length < sendCap then { ch with buf := ch.buf ++ [data], sent := ch.sent ++ [data] }
  else { ch with closed := true }

/-- What one atomic step from `h` to `h1` does to the client `c`: nothing, or a payload is queued
on its buffer, or its buffer is closed and it leaves the map, or it is the client that `ServeWS`
allocates and registers, or its writer pump makes one iteration. -/
inductive Effect (h h1 : Hub) (c : Handle) : Prop
  | same : h1.heap c = h.heap c → (c ∈ h1.clients ↔ c ∈ h.clients) →
      (c < h1.next ↔ c < h.next) → Effect h h1 c
  | enqueue (data : Payload) : c ∈ h.clients → c ∈ h1.clients →
      (h.heap c).send.buf.length < sendCap →
      h1.heap c = { h.heap c with send := { (h.heap c).send with
        buf := (h.heap c).send.buf ++ [data], sent := (h.heap c).send.sent ++ [data] } } →
      Effect h h1 c
  | drop : c ∈ h.clients → c ∉ h1.clients →
      h1.heap c = { h.heap c with send := { (h.heap c).send with closed := true } } →
      Effect h h1 c
  | alloc (userID userType : String) : c = h.next → h1.next = h.next + 1 → c ∈ h1.clients →
      h1.heap c = Client.fresh userID userType → Effect h h1 c
  | pump (wok : Bool) : (h.heap c).writePumpStep wok = some (h1.heap c) →
      (c ∈ h1.clients ↔ c ∈ h.clients) → (c < h1.next ↔ c < h.next) → Effect h h1 c

/-- The payloads of the text frames among the `WriteMessage` calls of a transport. -/
def Conn.texts (conn : Conn) : List Payload :=
  conn.calls.filterMap (fun x => match x.1 with | .text p => some p | .close => none)

/-- The writer pump of a client and its channel agree: the payloads written so far, followed
by the payloads still queued, are the payloads ever queued; the pump has called `WriteMessage`
for text frames only, and for one close frame at the end once it has returned; it returns only
on a closed and drained buffer. -/
structure Client.PumpInv (cl : Client) : Prop where
  fifo : cl.conn.texts ++ cl.send.buf = cl.send.sent
  frames : cl.conn.calls.map Prod.fst =
    cl.conn.texts.map Frame.text ++ (if cl.writerDone = true then [Frame.close] else [])
  done : cl.writerDone = true → cl.send.buf = [] ∧ cl.send.closed = true

/-- Invariant of the reachable states: the hub is well formed, the closed buffers are those of the
allocated clients that are out of the map, and every pump agrees with its channel. -/
structure Hub.Inv (h : Hub) : Prop where
  wf : h.WF
  closedIff : ∀ c, (h.heap c).send.closed = true ↔ (c < h.next ∧ c ∉ h.clients)
  pump : ∀ c, (h.heap c).PumpInv

/-- Requests that change the membership: register and unregister. -/
def Req.isMembership : Req → Bool
  | .broadcast _ => false
  | _ => true

/-- Spec wording of the membership property: the connection was registered in the sequence and
not unregistered afterwards. -/
def registeredAndKept (reqs : List Req) (c : Handle) : Prop :=
  ∃ pre post, reqs = pre ++ Req.register c :: post ∧ Req.unregister c ∉ post

/-- The requests about the connection `c` that make `Hub.Run` close its buffer twice: the
connection is registered, unregistered, registered again and unregistered again. -/
def secondClose (c : Handle) : List Req :=
  [Req.register c, Req.unregister c, Req.register c, Req.unregister c]

/-- What is left of `secondClose c` in the state `h`: the requests about `c` that, received in
this order from `h` on, make `Hub.Run` close the closed buffer of `c`. -/
def Hub.pending (h : Hub) (c : Handle) : List Req :=
  if c ∈ h.clients then
    if (h.heap c).send.closed = true then [Req.unregister c]
    else [Req.unregister c, Req.register c, Req.unregister c]
  else
    if (h.heap c).send.closed = true then [Req.register c, Req.unregister c]
    else secondClose c

/-- A hub with three registered clients: 0 is a dispatcher, 1 is a paramedic whose outbound
buffer holds 256 payloads, 2 is a paramedic with an empty buffer. -/
def demoHub : Hub :=
  { clients := [2, 1, 0],
    heap := fun x =>
      if x = 0 then Client.fresh "alice" "dispatcher"
      else if x = 1 then
        { Client.fresh "bob" "paramedic" with
          send := { buf := List.replicate 256 [], closed := false,
                    sent := List.replicate 256 [] } }
      else Client.fresh "carol" "paramedic",
    next := 3 }

/-- The envelope of the scenario of the specification. -/
def demoMsg : Message :=
  { Type_ := "assign", Data := Value.object [("incidentId", Value.string "1")],
    UserID := "", UserType := "" }

/-- The hub of the scenario of the specification: A (a dispatcher), B and C (paramedics) connect
through `ServeWS` to the hub of `NewHub`; their handles are 0, 1 and 2. -/
def scenarioHub : Hub :=
  ((NewHub.ServeWS true "A" "dispatcher").ServeWS true "B" "paramedic").ServeWS true "C" "paramedic"

/-- The scenario hub after a broadcast of the payload `[7]` and one iteration of the writer pump
of client 1. -/
def relayedHub : Hub :=
  match scenarioHub.broadcast [2, 1, 0] [7] with
  | .ok h => h.writePump 1 true
  | .error _ => scenarioHub

/-- A client whose writer pump has two payloads to write. -/
def twoQueued : Client :=
  { Client.fresh "bob" "paramedic" with
    send := { buf := [[1], [2]], closed := false, sent := [[1], [2]] } }

/-- A toy codec used in concrete evaluations. An envelope serializes to the character codes of its
type, user id and user type, separated by zeros. A frame parses when it is not empty: its first
byte is the data, and the sender fields it carries are those of a forger. -/
def toyJson : Json :=
  { marshal := fun m =>
      some (m.Type_.toList.map Char.toNat ++ 0 :: m.UserID.toList.map Char.toNat
              ++ 0 :: m.UserType.toList.map Char.toNat),
    unmarshal := fun p =>
      match p with
      | [] => none
      | k :: _ => some { Type_ := "chat", Data := Value.number k,
                         UserID := "mallory", UserType := "dispatcher" } }

/-! ## Basic facts on the store and the map -/

theorem Hub.deliver_ok (data : Payload) (c : Handle) (h : Hub)
    (hopen : (h.heap c).send.closed = false) :
    h.deliver data c = .ok
      { clients := if (h.heap c).send.buf.length < sendCap then h.clients
                   else h.clients.filter (fun x => x ≠ c),
        heap := fun x => if x = c then { h.heap c with send := (h.heap c).send.offer data }
                         else h.heap x,
        next := h.next } := by
  unfold Hub.deliver Chan.trySend Chan.offer
  rw [hopen]
  by_cases hlen : (h.heap c).send.buf.length < sendCap
  · simp [hlen, Hub.setSend]
  · simp [hlen, Hub.setSend, Hub.delete, Chan.close, hopen]

/-- What a broadcast loop does, client by client: a selected client gets the `select`
statement, every other client is left alone; the selected clients with a full buffer leave the
map. -/
theorem Hub.rangeClients_spec (sel : Client → Bool) (data : Payload)
    (body : Handle → Hub → Except Panic Hub)
    (hbody : ∀ c h1, body c h1 = if sel (h1.heap c) = true then h1.deliver data c else .ok h1) :
    ∀ (ord : List Handle) (h : Hub), ord.Nodup →
      (∀ c ∈ ord, c ∈ h.clients ∧ (h.heap c).send.closed = false) →
      ∃ h', Hub.rangeClients body ord h = .ok h' ∧ h'.next = h.next ∧
        h'.clients = h.clients.filter (fun c =>
          !(decide (c ∈ ord) && sel (h.heap c) &&
            decide (sendCap ≤ (h.heap c).send.buf.length))) ∧
        ∀ c, h'.heap c = if c ∈ ord ∧ sel (h.heap c) = true
                          then { h.heap c with send := (h.heap c).send.offer data }
                          else h.heap c := by
  intro ord
  induction ord with
  | nil =>
    intro h _ _
    exact ⟨h, rfl, rfl, by simp, by simp⟩
  | cons c rest ih =>
    intro h hnd hmem
    have hc := hmem c (by simp)
    obtain ⟨hcr, hnd1⟩ := List.nodup_cons.mp hnd
    simp only [Hub.rangeClients, hc.1, if_true]
    rw [hbody]
    by_cases hs : sel (h.heap c) = true
    · rw [if_pos hs, Hub.deliver_ok data c h hc.2]
      simp only []
      have hne : ∀ x ∈ rest, x ≠ c := fun x hx hxc => hcr (hxc ▸ hx)
      obtain ⟨h', hrun, hnext, hcl, hheap⟩ := ih
        { clients := if (h.heap c).send.buf.length < sendCap then h.clients
                     else h.clients.filter (fun x => x ≠ c),
          heap := fun x => if x = c then { h.heap c with send := (h.heap c).send.offer data }
                           else h.heap x,
          next := h.next } hnd1 (by
            intro x hx
            have hxc := hne x hx
            have hm := hmem x (by simp [hx])
            refine ⟨?_, by simpa [hxc] using hm.2⟩
            by_cases hlen : (h.heap c).send.buf.length < sendCap
            · simpa [hlen] using hm.1
            · simp [hlen, hm.1, hxc])
      refine ⟨h', hrun, hnext, ?_, ?_⟩
      · rw [hcl]
        by_cases hlen : (h.heap c).send.buf.length < sendCap
        · simp only [hlen, if_true]
          apply List.filter_congr
          intro x _
          by_cases hxc : x = c
          · subst hxc
            simp [hcr, Nat.not_le.mpr hlen]
          · simp [hxc]
        · simp only [hlen, if_false, List.filter_filter]
          apply List.filter_congr
          intro x _
          by_cases hxc : x = c
          · subst hxc
            simp [hs, Nat.le_of_not_lt hlen]
          · simp [hxc]
      · intro x
        rw [hheap x]
        by_cases hxc : x = c
        · subst hxc
          simp [hcr, hs]
        · simp [hxc]
    · rw [if_neg hs]
      obtain ⟨h', hrun, hnext, hcl, hheap⟩ := ih h hnd1 (fun x hx => hmem x (by simp [hx]))
      refine ⟨h', hrun, hnext, ?_, ?_⟩
      · rw [hcl]
        apply List.filter_congr
        intro x _
        by_cases hxc : x = c
        · subst hxc
          simp [hs]
        · simp [hxc]
      · intro x
        rw [hheap x]
        by_cases hxc : x = c
        · subst hxc
          simp [hs, hcr]
        · simp [hxc]

/-- A broadcast loop on a well-formed hub, visiting the map in any order: it does not panic, the
result is well formed, and membership and store are given client by client. -/
theorem Hub.fanout_ok (sel : Client → Bool) (data : Payload)
    (body : Handle → Hub → Except Panic Hub)
    (hbody : ∀ c h1, body c h1 = if sel (h1.heap c) = true then h1.deliver data c else .ok h1)
    (h : Hub) (hwf : h.WF) (ord : List Handle) (hord : ord.Perm h.clients) :
    ∃ h', Hub.rangeClients body ord h = .ok h' ∧ h'.WF ∧ h'.next = h.next ∧
      (∀ c, c ∈ h'.clients ↔
        c ∈ h.clients ∧ ¬(sel (h.heap c) = true ∧ sendCap ≤ (h.heap c).send.buf.length)) ∧
      (∀ c, h'.heap c = if c ∈ h.clients ∧ sel (h.heap c) = true
                          then { h.heap c with send := (h.heap c).send.offer data }
                          else h.heap c) := by
  have hmem : ∀ c, c ∈ ord ↔ c ∈ h.clients := fun c => hord.mem_iff
  obtain ⟨h', hrun, hnext, hcl, hheap⟩ := Hub.rangeClients_spec sel data body hbody ord h
    (hord.nodup_iff.mpr hwf.nodup) (fun c hc => ⟨(hmem c).mp hc, hwf.isOpen c ((hmem c).mp hc)⟩)
  have hmem' : ∀ c, c ∈ h'.clients ↔
      c ∈ h.clients ∧ ¬(sel (h.heap c) = true ∧ sendCap ≤ (h.heap c).send.buf.length) := by
    intro c
    rw [hcl, List.mem_filter]
    constructor
    · rintro ⟨hc, hp⟩
      refine ⟨hc, ?_⟩
      rintro ⟨h1, h2⟩
      simp [(hmem c).mpr hc, h1, h2] at hp
    · rintro ⟨hc, hp⟩
      refine ⟨hc, ?_⟩
      by_cases h1 : sel (h.heap c) = true
      · have h2 : ¬ sendCap ≤ (h.heap c).send.buf.length := fun h2 => hp ⟨h1, h2⟩
        simp [h2]
      · simp [h1]
  have hheap' : ∀ c, h'.heap c = if c ∈ h.clients ∧ sel (h.heap c) = true
      then { h.heap c with send := (h.heap c).send.offer data } else h.heap c := by
    intro c
    rw [hheap c]
    simp only [hmem c]
  refine ⟨h', hrun, ⟨?_, ?_, ?_⟩, hnext, hmem', hheap'⟩
  · rw [hcl]
    exact hwf.nodup.filter _
  · intro c hc
    rw [hnext]
    exact hwf.alloc c ((hmem' c).mp hc).1
  · intro c hc
    obtain ⟨hc1, hp⟩ := (hmem' c).mp hc
    rw [hheap' c]
    by_cases h1 : sel (h.heap c) = true
    · have h2 : (h.heap c).send.buf.length < sendCap := by
        by_contra h2
        exact hp ⟨h1, Nat.le_of_not_lt h2⟩
      simp [hc1, h1, Chan.offer, h2, hwf.isOpen c hc1]
    · simp [h1, hwf.isOpen c hc1]

/-- The effect of a broadcast loop on each client. -/
theorem Hub.fanout_effect (sel : Client → Bool) (data : Payload) (h h' : Hub)
    (hmem : ∀ c, c ∈ h'.clients ↔
        c ∈ h.clients ∧ ¬(sel (h.heap c) = true ∧ sendCap ≤ (h.heap c).send.buf.length))
    (hheap : ∀ c, h'.heap c = if c ∈ h.clients ∧ sel (h.heap c) = true
                          then { h.heap c with send := (h.heap c).send.offer data }
                          else h.heap c)
    (hnext : h'.next = h.next) (c : Handle) : Effect h h' c := by
  by_cases hc : c ∈ h.clients ∧ sel (h.heap c) = true
  · by_cases hlen : (h.heap c).send.buf.length < sendCap
    · refine Effect.enqueue data hc.1 ((hmem c).mpr ⟨hc.1, fun hp => ?_⟩) hlen ?_
      · exact absurd hlen (Nat.not_lt.mpr hp.2)
      · rw [hheap c, if_pos hc]
        simp [Chan.offer, hlen]
    · refine Effect.drop hc.1 (fun hc' => ?_) ?_
      · exact ((hmem c).mp hc').2 ⟨hc.2, Nat.le_of_not_lt hlen⟩
      · rw [hheap c, if_pos hc]
        simp [Chan.offer, hlen]
  · refine Effect.same ?_ ?_ (by rw [hnext])
    · rw [hheap c, if_neg hc]
    · rw [hmem c]
      constructor
      · exact fun hp => hp.1
      · exact fun hp => ⟨hp, fun hq => hc ⟨hp, hq.1⟩⟩

/-- The two moves of a writer pump: it writes the oldest queued payload, or, on a closed and
drained buffer, it writes the close frame, returns and closes the transport. -/
theorem Client.writePumpStep_some (wok : Bool) (cl cl' : Client)
    (hstep : cl.writePumpStep wok = some cl') :
    cl.writerDone = false ∧
    ((∃ m rest, cl.send.buf = m :: rest ∧
        cl' = { cl with send := { cl.send with buf := rest },
                        conn := { cl.conn with calls := cl.conn.calls ++ [(Frame.text m, wok)] } })
      ∨ (cl.send.buf = [] ∧ cl.send.closed = true ∧
        cl' = { cl with conn := { calls := cl.conn.calls ++ [(Frame.close, wok)], closed := true },
                        writerDone := true })) := by
  unfold Client.writePumpStep at hstep
  by_cases hd : cl.writerDone = true
  · simp [hd] at hstep
  · have hd' : cl.writerDone = false := by simpa using hd
    refine ⟨hd', ?_⟩
    simp only [hd', Bool.false_eq_true, if_false] at hstep
    unfold Chan.recv at hstep
    cases hb : cl.send.buf with
    | nil =>
      rw [hb] at hstep
      by_cases hc : cl.send.closed = true
      · simp only [hc, if_true, Option.some.injEq] at hstep
        right
        refine ⟨rfl, hc, ?_⟩
        rw [← hstep]
        simp [Conn.WriteMessage, Conn.Close]
      · simp [hc] at hstep
    | cons m rest =>
      rw [hb] at hstep
      simp only [Option.some.injEq] at hstep
      left
      refine ⟨m, rest, rfl, ?_⟩
      rw [← hstep]
      simp [Conn.WriteMessage, hd']

/-- Every enabled atomic step from a well-formed hub succeeds (no panic), keeps the hub well
formed, allocates at most one client and acts on each client by one of the five effects. -/
theorem Hub.apply_ok (json : Json) (e : Event) (h : Hub) (hwf : h.WF) (hen : e.enabled h) :
    ∃ h', h.apply json e = .ok h' ∧ h'.WF ∧ h.next ≤ h'.next ∧ ∀ c, Effect h h' c := by
  have hsame : ∃ h', (Except.ok h : Except Panic Hub) = .ok h' ∧ h'.WF ∧ h.next ≤ h'.next ∧
      ∀ c, Effect h h' c :=
    ⟨h, rfl, hwf, le_refl _, fun c => Effect.same rfl Iff.rfl Iff.rfl⟩
  cases e with
  | serveWS upgraded userID userType =>
    cases upgraded with
    | false => simpa [Hub.apply, Hub.ServeWS] using hsame
    | true =>
      have hn : h.next ∉ h.clients := fun hm => Nat.lt_irrefl _ (hwf.alloc _ hm)
      refine ⟨_, rfl, ⟨?_, ?_, ?_⟩, ?_, ?_⟩
      · simp [Hub.ServeWS, Hub.register, Hub.insert, hn, hwf.nodup]
      · intro c hc
        simp only [Hub.ServeWS, Hub.register, Hub.insert, hn, if_true, if_false,
          List.mem_cons] at hc ⊢
        rcases hc with hc | hc
        · exact hc ▸ Nat.lt_succ_self _
        · exact Nat.lt_succ_of_lt (hwf.alloc c hc)
      · intro c hc
        simp only [Hub.ServeWS, Hub.register, Hub.insert, hn, if_true, if_false,
          List.mem_cons] at hc ⊢
        by_cases hcn : c = h.next
        · simp [hcn, Client.fresh, Chan.make]
        · rcases hc with hc | hc
          · exact absurd hc hcn
          · simpa [hcn] using hwf.isOpen c hc
      · simp [Hub.ServeWS, Hub.register, Hub.insert]
      · intro c
        by_cases hcn : c = h.next
        · refine Effect.alloc userID userType hcn ?_ ?_ ?_
          · simp [Hub.ServeWS, Hub.register, Hub.insert]
          · simp [Hub.ServeWS, Hub.register, Hub.insert, hn, hcn]
          · simp [Hub.ServeWS, Hub.register, Hub.insert, hcn]
        · refine Effect.same ?_ ?_ ?_
          · simp [Hub.ServeWS, Hub.register, Hub.insert, hcn]
          · simp [Hub.ServeWS, Hub.register, Hub.insert, hn, hcn]
          · simp only [Hub.ServeWS, Hub.register, Hub.insert, if_true]
            constructor
            · intro hlt
              rcases Nat.lt_succ_iff_lt_or_eq.mp hlt with h1 | h1
              · exact h1
              · exact absurd h1 hcn
            · exact Nat.lt_succ_of_lt
  | unregister c0 =>
    by_cases hc0 : c0 ∈ h.clients
    · have hopen := hwf.isOpen c0 hc0
      refine ⟨(h.delete c0).setSend c0 { (h.heap c0).send with closed := true }, ?_,
        ⟨?_, ?_, ?_⟩, le_refl _, ?_⟩
      · simp [Hub.apply, Hub.unregister, hc0, Chan.close, Hub.delete, hopen]
      · simpa [Hub.setSend, Hub.delete] using hwf.nodup.filter _
      · intro c hc
        simp only [Hub.setSend, Hub.delete, List.mem_filter] at hc ⊢
        exact hwf.alloc c hc.1
      · intro c hc
        simp only [Hub.setSend, Hub.delete, List.mem_filter, decide_eq_true_eq] at hc ⊢
        simpa [hc.2] using hwf.isOpen c hc.1
      · intro c
        by_cases hcc : c = c0
        · subst hcc
          refine Effect.drop hc0 ?_ ?_
          · simp [Hub.setSend, Hub.delete]
          · simp [Hub.setSend, Hub.delete]
        · refine Effect.same ?_ ?_ Iff.rfl
          · simp [Hub.setSend, Hub.delete, hcc]
          · simp [Hub.setSend, Hub.delete, hcc]
    · simpa [Hub.apply, Hub.unregister, hc0] using hsame
  | broadcast ord message =>
    obtain ⟨h', hrun, hwf', hnext, hmem, hheap⟩ := Hub.fanout_ok (fun _ => true) message
      (fun c h1 => h1.deliver message c) (by simp) h hwf ord hen
    exact ⟨h', hrun, hwf', by rw [hnext],
      Hub.fanout_effect (fun _ => true) message h h' hmem hheap hnext⟩
  | toType ord userType message =>
    cases hm : json.marshal message with
    | none => simpa [Hub.apply, Hub.BroadcastToType, hm] using hsame
    | some data =>
      obtain ⟨h', hrun, hwf', hnext, hmem, hheap⟩ := Hub.fanout_ok
        (fun cl => decide (cl.userType = userType)) data
        (fun c h1 => if (h1.heap c).userType = userType then h1.deliver data c else .ok h1)
        (by simp) h hwf ord hen
      refine ⟨h', ?_, hwf', by rw [hnext],
        Hub.fanout_effect (fun cl => decide (cl.userType = userType)) data h h' hmem hheap hnext⟩
      simpa [Hub.apply, Hub.BroadcastToType, hm] using hrun
  | toUser ord userID message =>
    cases hm : json.marshal message with
    | none => simpa [Hub.apply, Hub.BroadcastToUser, hm] using hsame
    | some data =>
      obtain ⟨h', hrun, hwf', hnext, hmem, hheap⟩ := Hub.fanout_ok
        (fun cl => decide (cl.userID = userID)) data
        (fun c h1 => if (h1.heap c).userID = userID then h1.deliver data c else .ok h1)
        (by simp) h hwf ord hen
      refine ⟨h', ?_, hwf', by rw [hnext],
        Hub.fanout_effect (fun cl => decide (cl.userID = userID)) data h h' hmem hheap hnext⟩
      simpa [Hub.apply, Hub.BroadcastToUser, hm] using hrun
  | writePump c0 wok =>
    cases hp : (h.heap c0).writePumpStep wok with
    | none => simpa [Hub.apply, Hub.writePump, hp] using hsame
    | some cl =>
      have hcl : cl.send.closed = (h.heap c0).send.closed := by
        obtain ⟨_, ⟨m, rest, _, hcl⟩ | ⟨_, _, hcl⟩⟩ :=
          Client.writePumpStep_some wok (h.heap c0) cl hp <;> rw [hcl]
      refine ⟨{ h with heap := fun x => if x = c0 then cl else h.heap x }, ?_,
        ⟨hwf.nodup, hwf.alloc, ?_⟩, le_refl _, ?_⟩
      · simp [Hub.apply, Hub.writePump, hp]
      · intro c hc
        by_cases hcc : c = c0
        · subst hcc
          simpa [hcl] using hwf.isOpen c hc
        · simpa [hcc] using hwf.isOpen c hc
      · intro c
        by_cases hcc : c = c0
        · subst hcc
          exact Effect.pump wok (by simpa using hp) Iff.rfl Iff.rfl
        · exact Effect.same (by simp [hcc]) Iff.rfl Iff.rfl

/-- Several steps from a well-formed hub: the hub stays well formed, handles are only added, and
a client that was allocated and is out of the map stays out of it. -/
theorem Steps.wf_of (json : Json) {h h' : Hub} (hs : Steps json h h') (hwf : h.WF) :
    h'.WF ∧ h.next ≤ h'.next ∧ ∀ c, c < h.next → c ∉ h.clients → c ∉ h'.clients := by
  induction hs with
  | refl => exact ⟨hwf, le_refl _, fun _ _ hc => hc⟩
  | tail e _ hen happ ih =>
    obtain ⟨hwf1, hn1, hout1⟩ := ih
    obtain ⟨h3, happ3, hwf3, hn3, heff⟩ := Hub.apply_ok json e _ hwf1 hen
    rw [happ] at happ3
    cases happ3
    refine ⟨hwf3, le_trans hn1 hn3, fun c hc hout => ?_⟩
    have hc1 := hout1 c hc hout
    cases heff c with
    | same _ hm _ => exact fun hc2 => hc1 (hm.mp hc2)
    | enqueue _ hm _ _ _ => exact absurd hm hc1
    | drop _ hm _ => exact hm
    | alloc _ _ hcn _ _ _ => exact absurd (hcn ▸ hc) (Nat.not_lt.mpr hn1)
    | pump _ _ hm _ => exact fun hc2 => hc1 (hm.mp hc2)

/-- Case `message := <-h.broadcast` on a well-formed hub. -/
theorem Hub.broadcast_ok (h : Hub) (hwf : h.WF) (ord : List Handle) (hord : ord.Perm h.clients)
    (message : Payload) :
    ∃ h', h.broadcast ord message = .ok h' ∧ h'.WF ∧ h'.next = h.next ∧
      (∀ c, c ∈ h'.clients ↔ c ∈ h.clients ∧ ¬ sendCap ≤ (h.heap c).send.buf.length) ∧
      (∀ c, h'.heap c = if c ∈ h.clients
                          then { h.heap c with send := (h.heap c).send.offer message }
                          else h.heap c) := by
  obtain ⟨h', hrun, hwf', hnext, hmem, hheap⟩ := Hub.fanout_ok (fun _ => true) message
    (fun c h1 => h1.deliver message c) (by simp) h hwf ord hord
  exact ⟨h', hrun, hwf', hnext, by simpa using hmem, by simpa using hheap⟩

/-- The method `BroadcastToType` on a well-formed hub, for an envelope that serializes. -/
theorem Hub.BroadcastToType_ok (json : Json) (h : Hub) (hwf : h.WF) (ord : List Handle)
    (hord : ord.Perm h.clients) (userType : String) (message : Message) (data : Payload)
    (hm : json.marshal message = some data) :
    ∃ h', h.BroadcastToType json ord userType message = .ok h' ∧ h'.WF ∧ h'.next = h.next ∧
      (∀ c, c ∈ h'.clients ↔ c ∈ h.clients ∧
        ¬((h.heap c).userType = userType ∧ sendCap ≤ (h.heap c).send.buf.length)) ∧
      (∀ c, h'.heap c = if c ∈ h.clients ∧ (h.heap c).userType = userType
                          then { h.heap c with send := (h.heap c).send.offer data }
                          else h.heap c) := by
  obtain ⟨h', hrun, hwf', hnext, hmem, hheap⟩ := Hub.fanout_ok
    (fun cl => decide (cl.userType = userType)) data
    (fun c h1 => if (h1.heap c).userType = userType then h1.deliver data c else .ok h1)
    (by simp) h hwf ord hord
  refine ⟨h', ?_, hwf', hnext, by simpa using hmem, by simpa using hheap⟩
  simpa [Hub.BroadcastToType, hm] using hrun

/-- The method `BroadcastToUser` on a well-formed hub, for an envelope that serializes. -/
theorem Hub.BroadcastToUser_ok (json : Json) (h : Hub) (hwf : h.WF) (ord : List Handle)
    (hord : ord.Perm h.clients) (userID : String) (message : Message) (data : Payload)
    (hm : json.marshal message = some data) :
    ∃ h', h.BroadcastToUser json ord userID message = .ok h' ∧ h'.WF ∧ h'.next = h.next ∧
      (∀ c, c ∈ h'.clients ↔ c ∈ h.clients ∧
        ¬((h.heap c).userID = userID ∧ sendCap ≤ (h.heap c).send.buf.length)) ∧
      (∀ c, h'.heap c = if c ∈ h.clients ∧ (h.heap c).userID = userID
                          then { h.heap c with send := (h.heap c).send.offer data }
                          else h.heap c) := by
  obtain ⟨h', hrun, hwf', hnext, hmem, hheap⟩ := Hub.fanout_ok
    (fun cl => decide (cl.userID = userID)) data
    (fun c h1 => if (h1.heap c).userID = userID then h1.deliver data c else .ok h1)
    (by simp) h hwf ord hord
  refine ⟨h', ?_, hwf', hnext, by simpa using hmem, by simpa using hheap⟩
  simpa [Hub.BroadcastToUser, hm] using hrun

/-- A loop whose body leaves the hub as it is for every member leaves the hub as it is. -/
theorem Hub.rangeClients_noop (body : Handle → Hub → Except Panic Hub) (h : Hub)
    (hbody : ∀ c ∈ h.clients, body c h = .ok h) (ord : List Handle) :
    Hub.rangeClients body ord h = .ok h := by
  induction ord with
  | nil => rfl
  | cons c rest ih =>
    by_cases hc : c ∈ h.clients
    · simp [Hub.rangeClients, hc, hbody c hc, ih]
    · simp [Hub.rangeClients, hc, ih]

/-- The result of a broadcast loop does not depend on the order in which the map is visited. -/
theorem Hub.fanout_order (sel : Client → Bool) (data : Payload)
    (body : Handle → Hub → Except Panic Hub)
    (hbody : ∀ c h1, body c h1 = if sel (h1.heap c) = true then h1.deliver data c else .ok h1)
    (h : Hub) (hwf : h.WF) (ord ord2 : List Handle) (hord : ord.Perm h.clients)
    (hord2 : ord2.Perm h.clients) :
    Hub.rangeClients body ord2 h = Hub.rangeClients body ord h := by
  have hmem : ∀ c, c ∈ ord ↔ c ∈ h.clients := fun c => hord.mem_iff
  have hmem2 : ∀ c, c ∈ ord2 ↔ c ∈ h.clients := fun c => hord2.mem_iff
  obtain ⟨h1, hrun1, hnext1, hcl1, hheap1⟩ := Hub.rangeClients_spec sel data body hbody ord h
    (hord.nodup_iff.mpr hwf.nodup) (fun c hc => ⟨(hmem c).mp hc, hwf.isOpen c ((hmem c).mp hc)⟩)
  obtain ⟨h2, hrun2, hnext2, hcl2, hheap2⟩ := Hub.rangeClients_spec sel data body hbody ord2 h
    (hord2.nodup_iff.mpr hwf.nodup)
    (fun c hc => ⟨(hmem2 c).mp hc, hwf.isOpen c ((hmem2 c).mp hc)⟩)
  rw [hrun1, hrun2]
  have e1 : h2.clients = h1.clients := by
    rw [hcl1, hcl2]
    apply List.filter_congr
    intro x hx
    simp [(hmem x).mpr hx, (hmem2 x).mpr hx]
  have e2 : h2.heap = h1.heap := by
    funext x
    rw [hheap1 x, hheap2 x]
    simp only [hmem x, hmem2 x]
  have e3 : h2.next = h1.next := by rw [hnext1, hnext2]
  cases h1
  cases h2
  simp only at e1 e2 e3
  rw [e1, e2, e3]

theorem registeredAndKept_cons (r : Req) (rest : List Req) (c : Handle) :
    registeredAndKept (r :: rest) c ↔
      (r = Req.register c ∧ Req.unregister c ∉ rest) ∨ registeredAndKept rest c := by
  constructor
  · rintro ⟨pre, post, heq, hn⟩
    cases pre with
    | nil =>
      simp only [List.nil_append, List.cons.injEq] at heq
      exact Or.inl ⟨heq.1, heq.2 ▸ hn⟩
    | cons p pre1 =>
      simp only [List.cons_append, List.cons.injEq] at heq
      exact Or.inr ⟨pre1, post, heq.2, hn⟩
  · rintro (⟨hr, hn⟩ | ⟨pre, post, heq, hn⟩)
    · exact ⟨[], rest, by simp [hr], hn⟩
    · exact ⟨r :: pre, post, by simp [heq], hn⟩

theorem Hub.pending_of_ne (h h1 : Hub) (c : Handle) (hheap : h1.heap c = h.heap c)
    (hmem : c ∈ h1.clients ↔ c ∈ h.clients) : h1.pending c = h.pending c := by
  unfold Hub.pending
  rw [hheap]
  by_cases hc : c ∈ h.clients
  · rw [if_pos hc, if_pos (hmem.mpr hc)]
  · rw [if_neg hc, if_neg (fun hc1 => hc (hmem.mp hc1))]

theorem Hub.mem_register (h : Hub) (d c : Handle) :
    c ∈ (h.register d).clients ↔ c = d ∨ c ∈ h.clients := by
  by_cases hm : d ∈ h.clients
  · simp only [Hub.register, Hub.insert, hm, if_true]
    constructor
    · exact Or.inr
    · rintro (hcd | hc)
      · exact hcd ▸ hm
      · exact hc
  · simp [Hub.register, Hub.insert, hm]

/-- The loop of `Hub.Run` on register and unregister requests, from any hub, when the sequence
does not lead to closing a closed buffer: the run returns, and the members at the end are the
connections registered and kept in the sequence and the initial members that no request
unregisters. -/
theorem Hub.Run_membership (sched : Hub → List Handle) :
    ∀ (reqs : List Req) (h : Hub), (∀ r ∈ reqs, r.isMembership = true) → h.clients.Nodup →
      (∀ c, ¬ (h.pending c).Sublist reqs) →
      ∃ h', Hub.Run sched reqs h = .ok h' ∧ h'.clients.Nodup ∧
        ∀ c, c ∈ h'.clients ↔
          (registeredAndKept reqs c ∨ (c ∈ h.clients ∧ Req.unregister c ∉ reqs)) := by
  intro reqs
  induction reqs with
  | nil =>
    intro h _ hnd _
    refine ⟨h, rfl, hnd, fun c => ?_⟩
    have : ¬ registeredAndKept [] c := by
      rintro ⟨pre, post, heq, _⟩
      simp at heq
    simp [this]
  | cons r rest ih =>
    intro h hall hnd hpat
    have hall1 : ∀ r ∈ rest, r.isMembership = true := fun x hx => hall x (by simp [hx])
    cases r with
    | register d =>
      have hpat1 : ∀ c, ¬ ((h.register d).pending c).Sublist rest := by
        intro c hs
        by_cases hcd : c = d
        · subst hcd
          apply hpat c
          have hin : c ∈ (h.register c).clients := (Hub.mem_register h c c).mpr (Or.inl rfl)
          have hp1 : (h.register c).pending c =
              if (h.heap c).send.closed = true then [Req.unregister c]
              else [Req.unregister c, Req.register c, Req.unregister c] := by
            unfold Hub.pending
            rw [if_pos hin]
            rfl
          rw [hp1] at hs
          by_cases hm : c ∈ h.clients
          · have hp : h.pending c =
                if (h.heap c).send.closed = true then [Req.unregister c]
                else [Req.unregister c, Req.register c, Req.unregister c] := by
              unfold Hub.pending
              rw [if_pos hm]
            rw [hp]
            exact List.Sublist.cons _ hs
          · have hp : h.pending c = Req.register c ::
                (if (h.heap c).send.closed = true then [Req.unregister c]
                 else [Req.unregister c, Req.register c, Req.unregister c]) := by
              unfold Hub.pending secondClose
              rw [if_neg hm]
              by_cases hcl : (h.heap c).send.closed = true
              · rw [if_pos hcl, if_pos hcl]
              · rw [if_neg hcl, if_neg hcl]
            rw [hp]
            exact List.Sublist.cons₂ _ hs
        · rw [Hub.pending_of_ne h (h.register d) c rfl
            (by rw [Hub.mem_register]; simp [hcd])] at hs
          exact hpat c (List.Sublist.cons _ hs)
      obtain ⟨h', hrun, hnd', hiff⟩ := ih (h.register d) hall1
        (by
          by_cases hm : d ∈ h.clients
          · simpa [Hub.register, Hub.insert, hm] using hnd
          · simp [Hub.register, Hub.insert, hm, hnd])
        hpat1
      refine ⟨h', by simpa [Hub.Run, Hub.runStep] using hrun, hnd', fun c => ?_⟩
      rw [hiff c, registeredAndKept_cons, Hub.mem_register]
      simp only [Req.register.injEq, List.mem_cons, not_or]
      constructor
      · rintro (hk | ⟨hcd | hc, hn⟩)
        · exact Or.inl (Or.inr hk)
        · exact Or.inl (Or.inl ⟨hcd.symm, hn⟩)
        · exact Or.inr ⟨hc, ⟨by simp, hn⟩⟩
      · rintro ((⟨hcd, hn⟩ | hk) | ⟨hc, _, hn⟩)
        · exact Or.inr ⟨Or.inl hcd.symm, hn⟩
        · exact Or.inl hk
        · exact Or.inr ⟨Or.inr hc, hn⟩
    | unregister d =>
      by_cases hm : d ∈ h.clients
      · have hd : (h.heap d).send.closed = false := by
          cases hcl : (h.heap d).send.closed with
          | false => rfl
          | true =>
            exfalso
            apply hpat d
            have hp : h.pending d = [Req.unregister d] := by
              unfold Hub.pending
              rw [if_pos hm, if_pos hcl]
            rw [hp]
            exact List.singleton_sublist.mpr (List.mem_cons_self _ _)
        have hpat1 : ∀ c, ¬ (((h.delete d).setSend d
            { (h.heap d).send with closed := true }).pending c).Sublist rest := by
          intro c hs
          by_cases hcd : c = d
          · subst hcd
            apply hpat c
            have hp1 : ((h.delete c).setSend c { (h.heap c).send with closed := true }).pending c =
                [Req.register c, Req.unregister c] := by
              simp [Hub.pending, Hub.setSend, Hub.delete]
            have hp : h.pending c = [Req.unregister c, Req.register c, Req.unregister c] := by
              unfold Hub.pending
              rw [if_pos hm, if_neg (by simp [hd])]
            rw [hp1] at hs
            rw [hp]
            exact List.Sublist.cons₂ _ hs
          · rw [Hub.pending_of_ne h _ c (by simp [Hub.setSend, Hub.delete, hcd])
              (by simp [Hub.setSend, Hub.delete, hcd])] at hs
            exact hpat c (List.Sublist.cons _ hs)
        obtain ⟨h', hrun, hnd', hiff⟩ := ih
          ((h.delete d).setSend d { (h.heap d).send with closed := true }) hall1
          (by simpa [Hub.setSend, Hub.delete] using hnd.filter _) hpat1
        refine ⟨h', ?_, hnd', fun c => ?_⟩
        · simpa [Hub.Run, Hub.runStep, Hub.unregister, hm, Chan.close, Hub.delete, hd] using hrun
        · rw [hiff c, registeredAndKept_cons]
          simp only [Hub.setSend, Hub.delete, List.mem_filter, decide_eq_true_eq,
            Req.unregister.injEq, List.mem_cons, not_or, false_and, false_or, reduceCtorEq]
          constructor
          · rintro (hk | ⟨⟨hc, hcd⟩, hn⟩)
            · exact Or.inl hk
            · exact Or.inr ⟨hc, hcd, hn⟩
          · rintro (hk | ⟨hc, hcd, hn⟩)
            · exact Or.inl hk
            · exact Or.inr ⟨⟨hc, hcd⟩, hn⟩
      · obtain ⟨h', hrun, hnd', hiff⟩ := ih h hall1 hnd
          (fun c hs => hpat c (List.Sublist.cons _ hs))
        refine ⟨h', ?_, hnd', fun c => ?_⟩
        · simpa [Hub.Run, Hub.runStep, Hub.unregister, hm] using hrun
        · rw [hiff c, registeredAndKept_cons]
          simp only [Req.unregister.injEq, List.mem_cons, not_or, false_and, false_or,
            reduceCtorEq]
          constructor
          · rintro (hk | ⟨hc, hn⟩)
            · exact Or.inl hk
            · exact Or.inr ⟨hc, fun hcd => hm (hcd ▸ hc), hn⟩
          · rintro (hk | ⟨hc, _, hn⟩)
            · exact Or.inl hk
            · exact Or.inr ⟨hc, hn⟩
    | broadcast m =>
      have := hall (Req.broadcast m) (by simp)
      simp [Req.isMembership] at this

theorem Hub.pending_mem (h : Hub) (c : Handle) (hm : c ∈ h.clients) :
    h.pending c = if (h.heap c).send.closed = true then [Req.unregister c]
      else [Req.unregister c, Req.register c, Req.unregister c] := by
  unfold Hub.pending
  rw [if_pos hm]

theorem Hub.pending_not_mem (h : Hub) (c : Handle) (hm : c ∉ h.clients) :
    h.pending c = Req.register c :: (if (h.heap c).send.closed = true then [Req.unregister c]
      else [Req.unregister c, Req.register c, Req.unregister c]) := by
  unfold Hub.pending secondClose
  rw [if_neg hm]
  by_cases hcl : (h.heap c).send.closed = true
  · rw [if_pos hcl, if_pos hcl]
  · rw [if_neg hcl, if_neg hcl]

/-- The condition of `Hub.Run_membership` is needed: a sequence of register and unregister
requests that contains, in this order, the requests pending for some connection makes `Hub.Run`
close a closed buffer. -/
theorem Hub.Run_closes_twice (sched : Hub → List Handle) :
    ∀ (reqs : List Req) (h : Hub), (∀ r ∈ reqs, r.isMembership = true) →
      (∃ c, (h.pending c).Sublist reqs) →
      Hub.Run sched reqs h = .error Panic.closeOfClosedChannel := by
  intro reqs
  induction reqs with
  | nil =>
    rintro h _ ⟨c, hs⟩
    have hnil := List.eq_nil_of_sublist_nil hs
    by_cases hm : c ∈ h.clients
    · rw [Hub.pending_mem h c hm] at hnil
      by_cases hcl : (h.heap c).send.closed = true
      · simp [hcl] at hnil
      · simp [hcl] at hnil
    · rw [Hub.pending_not_mem h c hm] at hnil
      simp at hnil
  | cons r rest ih =>
    rintro h hall ⟨c, hs⟩
    have hall1 : ∀ r ∈ rest, r.isMembership = true := fun x hx => hall x (by simp [hx])
    rw [List.sublist_cons_iff] at hs
    cases r with
    | register d =>
      have hrun : Hub.Run sched (Req.register d :: rest) h = Hub.Run sched rest (h.register d) := by
        simp [Hub.Run, Hub.runStep]
      rw [hrun]
      apply ih (h.register d) hall1
      have hin : d ∈ (h.register d).clients := (Hub.mem_register h d d).mpr (Or.inl rfl)
      have hp1 : (h.register d).pending d =
          if (h.heap d).send.closed = true then [Req.unregister d]
          else [Req.unregister d, Req.register d, Req.unregister d] := by
        rw [Hub.pending_mem _ d hin]
        rfl
      rcases hs with hs | ⟨t, ht, hs⟩
      · by_cases hcd : c = d
        · subst hcd
          refine ⟨c, ?_⟩
          rw [hp1]
          by_cases hm : c ∈ h.clients
          · rw [Hub.pending_mem h c hm] at hs
            exact hs
          · rw [Hub.pending_not_mem h c hm] at hs
            exact (List.sublist_cons_self _ _).trans hs
        · refine ⟨c, ?_⟩
          rw [Hub.pending_of_ne h (h.register d) c rfl (by rw [Hub.mem_register]; simp [hcd])]
          exact hs
      · by_cases hm : c ∈ h.clients
        · rw [Hub.pending_mem h c hm] at ht
          by_cases hcl : (h.heap c).send.closed = true
          · simp [hcl] at ht
          · simp [hcl] at ht
        · rw [Hub.pending_not_mem h c hm] at ht
          simp only [List.cons.injEq, Req.register.injEq] at ht
          obtain ⟨hcd, ht⟩ := ht
          subst hcd
          refine ⟨c, ?_⟩
          rw [hp1, ht]
          exact hs
    | unregister d =>
      by_cases hm : d ∈ h.clients
      · cases hcl : (h.heap d).send.closed with
        | true => simp [Hub.Run, Hub.runStep, Hub.unregister, hm, Chan.close, Hub.delete, hcl]
        | false =>
          have hrun : Hub.Run sched (Req.unregister d :: rest) h = Hub.Run sched rest
              ((h.delete d).setSend d { (h.heap d).send with closed := true }) := by
            simp [Hub.Run, Hub.runStep, Hub.unregister, hm, Chan.close, Hub.delete, hcl]
          rw [hrun]
          apply ih _ hall1
          have hp1 : ((h.delete d).setSend d { (h.heap d).send with closed := true }).pending d =
              [Req.register d, Req.unregister d] := by
            simp [Hub.pending, Hub.setSend, Hub.delete]
          have hp : h.pending d = [Req.unregister d, Req.register d, Req.unregister d] := by
            rw [Hub.pending_mem h d hm, if_neg (by simp [hcl])]
          rcases hs with hs | ⟨t, ht, hs⟩
          · by_cases hcd : c = d
            · subst hcd
              refine ⟨c, ?_⟩
              rw [hp1]
              rw [hp] at hs
              exact (List.sublist_cons_self _ _).trans hs
            · refine ⟨c, ?_⟩
              rw [Hub.pending_of_ne h _ c (by simp [Hub.setSend, Hub.delete, hcd])
                (by simp [Hub.setSend, Hub.delete, hcd])]
              exact hs
          · by_cases hmc : c ∈ h.clients
            · rw [Hub.pending_mem h c hmc] at ht
              have hcd : c = d := by
                by_cases hclc : (h.heap c).send.closed = true
                · simp [hclc] at ht
                  exact ht.1
                · simp [hclc] at ht
                  exact ht.1
              subst hcd
              refine ⟨c, ?_⟩
              rw [hp1]
              rw [if_neg (by simp [hcl])] at ht
              simp only [List.cons.injEq, true_and] at ht
              rw [ht]
              exact hs
            · rw [Hub.pending_not_mem h c hmc] at ht
              simp at ht
      · have hrun : Hub.Run sched (Req.unregister d :: rest) h = Hub.Run sched rest h := by
          simp [Hub.Run, Hub.runStep, Hub.unregister, hm]
        rw [hrun]
        apply ih h hall1
        rcases hs with hs | ⟨t, ht, hs⟩
        · exact ⟨c, hs⟩
        · by_cases hmc : c ∈ h.clients
          · rw [Hub.pending_mem h c hmc] at ht
            have hcd : c = d := by
              by_cases hclc : (h.heap c).send.closed = true
              · simp [hclc] at ht
                exact ht.1
              · simp [hclc] at ht
                exact ht.1
            exact absurd (hcd ▸ hmc) hm
          · rw [Hub.pending_not_mem h c hmc] at ht
            simp at ht
    | broadcast m =>
      have := hall (Req.broadcast m) (by simp)
      simp [Req.isMembership] at this

/-- From the hub of `NewHub`, a sequence of register and unregister requests that registers,
unregisters, registers again and unregisters again one connection makes `Hub.Run` panic: the
condition of C1 leaves out exactly the sequences on which the run does not return. -/
theorem NewHub_Run_closes_twice (sched : Hub → List Handle) (reqs : List Req)
    (hreqs : ∀ r ∈ reqs, r.isMembership = true) (c : Handle)
    (hs : (secondClose c).Sublist reqs) :
    Hub.Run sched reqs NewHub = .error Panic.closeOfClosedChannel := by
  apply Hub.Run_closes_twice sched reqs NewHub hreqs
  refine ⟨c, ?_⟩
  have hp : NewHub.pending c = secondClose c := by
    simp [Hub.pending, NewHub, Client.fresh, Chan.make]
  rw [hp]
  exact hs

/-- A sequence in which every connection is registered at most once, as are all the sequences
that `ServeWS` and the pumps send to `Hub.Run`, never leads to closing a buffer twice. -/
theorem secondClose_not_sublist_of_registered_once (reqs : List Req) (c : Handle)
    (honce : reqs.count (Req.register c) ≤ 1) : ¬ (secondClose c).Sublist reqs := by
  intro hs
  have h2 := hs.count_le (Req.register c)
  have h3 : (secondClose c).count (Req.register c) = 2 := by
    simp [secondClose, List.count_cons]
  rw [h3] at h2
  exact absurd (Nat.le_trans h2 honce) (by decide)

/-- An unregister request for a member of a well-formed hub: the member leaves the map and its
buffer is closed. -/
theorem Hub.unregister_member (h : Hub) (hwf : h.WF) (c : Handle) (hc : c ∈ h.clients) :
    h.unregister c = .ok ((h.delete c).setSend c { (h.heap c).send with closed := true }) ∧
    ((h.delete c).setSend c { (h.heap c).send with closed := true }).WF := by
  have hopen := hwf.isOpen c hc
  refine ⟨?_, ⟨?_, ?_, ?_⟩⟩
  · simp [Hub.unregister, hc, Chan.close, Hub.delete, hopen]
  · simpa [Hub.setSend, Hub.delete] using hwf.nodup.filter _
  · intro x hx
    simp only [Hub.setSend, Hub.delete, List.mem_filter] at hx ⊢
    exact hwf.alloc x hx.1
  · intro x hx
    simp only [Hub.setSend, Hub.delete, List.mem_filter, decide_eq_true_eq] at hx ⊢
    simpa [hx.2] using hwf.isOpen x hx.1

/-- The scenario of the specification, for every codec, every envelope that serializes and every
order of the two visits: the first paramedic broadcast queues the envelope for B and C and not
for A; after B is unregistered, the same broadcast queues it for C only. -/
theorem scenario_paramedic_broadcast (json : Json) (message : Message) (data : Payload)
    (hm : json.marshal message = some data) (ord : List Handle)
    (hord : ord.Perm scenarioHub.clients) :
    ∃ h1 h2, scenarioHub.BroadcastToType json ord "paramedic" message = .ok h1 ∧
      (h1.heap 0).send.buf = [] ∧ (h1.heap 1).send.buf = [data] ∧
      (h1.heap 2).send.buf = [data] ∧
      h1.unregister 1 = .ok h2 ∧
      ∀ ord2 : List Handle, ord2.Perm h2.clients →
        ∃ h3, h2.BroadcastToType json ord2 "paramedic" message = .ok h3 ∧
          (h3.heap 0).send.buf = [] ∧ (h3.heap 1).send.buf = [data] ∧
          (h3.heap 2).send.buf = [data, data] := by
  have hwf0 : scenarioHub.WF := ⟨by decide, by decide, by decide⟩
  obtain ⟨h1, hrun1, hwf1, _, hmem1, hheap1⟩ :=
    Hub.BroadcastToType_ok json scenarioHub hwf0 ord hord "paramedic" message data hm
  have hA1 : h1.heap 0 = scenarioHub.heap 0 := by
    rw [hheap1 0, if_neg (by decide)]
  have hB1 : h1.heap 1 =
      { scenarioHub.heap 1 with send := (scenarioHub.heap 1).send.offer data } := by
    rw [hheap1 1, if_pos (by decide)]
  have hC1 : h1.heap 2 =
      { scenarioHub.heap 2 with send := (scenarioHub.heap 2).send.offer data } := by
    rw [hheap1 2, if_pos (by decide)]
  have hAin : (0 : Handle) ∈ h1.clients := (hmem1 0).mpr (by decide)
  have hBin : (1 : Handle) ∈ h1.clients := (hmem1 1).mpr (by decide)
  have hCin : (2 : Handle) ∈ h1.clients := (hmem1 2).mpr (by decide)
  obtain ⟨hun, hwf2⟩ := Hub.unregister_member h1 hwf1 1 hBin
  refine ⟨h1, _, hrun1, by rw [hA1]; rfl, by rw [hB1]; rfl, by rw [hC1]; rfl, hun, ?_⟩
  intro ord2 hord2
  obtain ⟨h3, hrun3, _, _, _, hheap3⟩ :=
    Hub.BroadcastToType_ok json _ hwf2 ord2 hord2 "paramedic" message data hm
  refine ⟨h3, hrun3, ?_, ?_, ?_⟩
  · rw [hheap3 0, if_neg]
    · simp only [Hub.setSend, Hub.delete]
      rw [if_neg (by decide), hA1]
      rfl
    · simp only [Hub.setSend, Hub.delete]
      rw [if_neg (by decide), hA1]
      exact fun hp => absurd hp.2 (by decide)
  · rw [hheap3 1, if_neg]
    · simp only [Hub.setSend, Hub.delete, if_true]
      rw [hB1]
      rfl
    · simp [Hub.setSend, Hub.delete]
  · rw [hheap3 2, if_pos]
    · simp only [Hub.setSend, Hub.delete]
      rw [if_neg (by decide), hC1]
      rfl
    · simp only [Hub.setSend, Hub.delete]
      rw [if_neg (by decide), hC1]
      exact ⟨by simp [hCin], rfl⟩

theorem Conn.texts_append_text (conn : Conn) (m : Payload) (wok : Bool) :
    Conn.texts { conn with calls := conn.calls ++ [(Frame.text m, wok)] } = conn.texts ++ [m] := by
  simp [Conn.texts, List.filterMap_append]

theorem Conn.texts_append_close (calls : List (Frame × Bool)) (wok cl : Bool) :
    Conn.texts { calls := calls ++ [(Frame.close, wok)], closed := cl } =
      Conn.texts { calls := calls, closed := false } := by
  simp [Conn.texts, List.filterMap_append]

theorem Conn.texts_eq (conn : Conn) :
    Conn.texts { calls := conn.calls, closed := false } = conn.texts := rfl

/-- One iteration of a writer pump keeps the pump in agreement with its channel, and touches
neither the history nor the closed flag of the channel. -/
theorem Client.pumpInv_step {cl cl' : Client} (wok : Bool) (hinv : cl.PumpInv)
    (hstep : cl.writePumpStep wok = some cl') :
    cl'.PumpInv ∧ cl'.send.sent = cl.send.sent ∧ cl'.send.closed = cl.send.closed ∧
      (cl'.writerDone = true ∨
        (cl'.writerDone = false ∧ cl'.send.buf.length + 1 = cl.send.buf.length)) := by
  obtain ⟨hd, ⟨m, rest, hb, hcl⟩ | ⟨hb, hc, hcl⟩⟩ := Client.writePumpStep_some wok cl cl' hstep
  · subst hcl
    refine ⟨⟨?_, ?_, ?_⟩, rfl, rfl, Or.inr ⟨hd, by simp [hb]⟩⟩
    · simp only [Conn.texts_append_text]
      rw [← hinv.fifo, hb]
      simp
    · simp only [Conn.texts_append_text]
      have := hinv.frames
      simp only [hd, Bool.false_eq_true, if_false, List.append_nil] at this ⊢
      simp [this]
    · intro hdone
      simp [hd] at hdone
  · subst hcl
    refine ⟨⟨?_, ?_, ?_⟩, rfl, rfl, Or.inl rfl⟩
    · simp only [Conn.texts_append_close, Conn.texts_eq]
      exact hinv.fifo
    · simp only [Conn.texts_append_close, Conn.texts_eq]
      have := hinv.frames
      simp only [hd, Bool.false_eq_true, if_false, List.append_nil] at this
      simp [this]
    · intro _
      exact ⟨hb, hc⟩

/-- The invariant of the reachable states is kept by every atomic step. -/
theorem Hub.inv_step {h h' : Hub} (hinv : h.Inv) (hwf' : h'.WF) (hn : h.next ≤ h'.next)
    (heff : ∀ c, Effect h h' c) : h'.Inv := by
  refine ⟨hwf', fun c => ?_, fun c => ?_⟩
  · cases heff c with
    | same heq hm hlt => rw [heq, hm, hlt]; exact hinv.closedIff c
    | enqueue data hc hc' _ heq =>
      rw [heq]
      simp only [hinv.wf.isOpen c hc, Bool.false_eq_true, false_iff, not_and, not_not]
      exact fun _ => hc'
    | drop hc hc' heq =>
      rw [heq]
      simp only [true_iff]
      exact ⟨Nat.lt_of_lt_of_le (hinv.wf.alloc c hc) hn, hc'⟩
    | alloc userID userType _ _ hc' heq =>
      rw [heq]
      simp only [Client.fresh, Chan.make, Bool.false_eq_true, false_iff, not_and, not_not]
      exact fun _ => hc'
    | pump wok hstep hm hlt =>
      obtain ⟨_, _, hcl, _⟩ := Client.pumpInv_step wok (hinv.pump c) hstep
      rw [hcl, hm, hlt]
      exact hinv.closedIff c
  · cases heff c with
    | same heq _ _ => rw [heq]; exact hinv.pump c
    | enqueue data hc _ _ heq =>
      rw [heq]
      have hp := hinv.pump c
      have hnd : (h.heap c).writerDone = false := by
        cases hd : (h.heap c).writerDone with
        | false => rfl
        | true =>
          have := (hp.done hd).2
          rw [hinv.wf.isOpen c hc] at this
          exact absurd this (by simp)
      refine ⟨?_, hp.frames, ?_⟩
      · simp only []
        rw [← List.append_assoc, hp.fifo]
      · intro hd
        simp only [] at hd
        rw [hnd] at hd
        exact absurd hd (by simp)
    | drop _ _ heq =>
      rw [heq]
      have hp := hinv.pump c
      exact ⟨hp.fifo, hp.frames, fun hd => ⟨(hp.done hd).1, rfl⟩⟩
    | alloc userID userType _ _ _ heq =>
      rw [heq]
      exact ⟨rfl, rfl, fun hd => by simp [Client.fresh] at hd⟩
    | pump wok hstep _ _ => exact (Client.pumpInv_step wok (hinv.pump c) hstep).1

theorem NewHub_inv : NewHub.Inv := by
  refine ⟨⟨by simp [NewHub], by simp [NewHub], by simp [NewHub]⟩, fun c => ?_, fun c => ?_⟩
  · simp [NewHub, Client.fresh, Chan.make]
  · exact ⟨rfl, rfl, fun hd => by simp [NewHub, Client.fresh] at hd⟩

/-- Every state reached from a state with the invariant has the invariant. -/
theorem Steps.inv (json : Json) {h h' : Hub} (hs : Steps json h h') (hinv : h.Inv) : h'.Inv := by
  induction hs with
  | refl => exact hinv
  | tail e _ hen happ ih =>
    obtain ⟨h3, happ3, hwf3, hn3, heff⟩ := Hub.apply_ok json e _ ih.wf hen
    rw [happ] at happ3
    cases happ3
    exact Hub.inv_step ih hwf3 hn3 heff

/-- Every reachable state is well formed. -/
theorem reachable_wf (json : Json) (h : Hub) (hr : Reachable json h) : h.WF :=
  (Steps.inv json hr NewHub_inv).wf

/-- Once the buffer of a client is closed, scheduling its writer pump once more than there are
queued payloads makes it return, having called `WriteMessage` for every payload ever queued, in
order, and then for one close frame. -/
theorem Hub.writePumpRun_drains (c : Handle) :
    ∀ (woks : List Bool) (h : Hub), (h.heap c).PumpInv → (h.heap c).send.closed = true →
      woks.length = (h.heap c).send.buf.length + 1 →
      ((h.writePumpRun c woks).heap c).writerDone = true ∧
      ((h.writePumpRun c woks).heap c).conn.calls.map Prod.fst =
        (h.heap c).send.sent.map Frame.text ++ [Frame.close] := by
  have hdone : ∀ h : Hub, (h.heap c).PumpInv → (h.heap c).writerDone = true →
      (h.heap c).conn.calls.map Prod.fst =
        (h.heap c).send.sent.map Frame.text ++ [Frame.close] := by
    intro h hp hd
    have h1 := hp.frames
    have h2 := hp.fifo
    rw [(hp.done hd).1, List.append_nil] at h2
    rw [h1, h2]
    simp [hd]
  intro woks
  induction woks with
  | nil =>
    intro h _ _ hlen
    simp at hlen
  | cons wok rest ih =>
    intro h hp hcl hlen
    simp only [Hub.writePumpRun]
    cases hs : (h.heap c).writePumpStep wok with
    | none =>
      have hd : (h.heap c).writerDone = true := by
        cases hd : (h.heap c).writerDone with
        | true => rfl
        | false =>
          exfalso
          simp only [Client.writePumpStep, hd, Chan.recv, Bool.false_eq_true, if_false] at hs
          cases hb : (h.heap c).send.buf with
          | nil => simp [hb, hcl] at hs
          | cons m tl => simp [hb] at hs
      have hrest : rest = [] := by
        rw [(hp.done hd).1] at hlen
        simpa using hlen
      subst hrest
      simp only [Hub.writePump, hs, Hub.writePumpRun]
      exact ⟨hd, hdone h hp hd⟩
    | some cl =>
      obtain ⟨hp', hsent, hclosed, hprog⟩ := Client.pumpInv_step wok hp hs
      have hheap : (h.writePump c wok).heap c = cl := by simp [Hub.writePump, hs]
      rcases hprog with hd | ⟨_, hlen'⟩
      · have hrest : rest = [] := by
          have hb := (hp'.done hd).1
          obtain ⟨hd0, ⟨m, tl, hb0, hcl0⟩ | ⟨hb0, _, _⟩⟩ :=
            Client.writePumpStep_some wok (h.heap c) cl hs
          · rw [hcl0] at hd
            simp only [] at hd
            rw [hd0] at hd
            exact absurd hd (by simp)
          · rw [hb0] at hlen
            simpa using hlen
        subst hrest
        simp only [Hub.writePumpRun]
        rw [hheap]
        refine ⟨hd, ?_⟩
        rw [← hsent]
        have := hdone (h.writePump c wok) (by rw [hheap]; exact hp') (by rw [hheap]; exact hd)
        rw [hheap] at this
        exact this
      · have := ih (h.writePump c wok) (by rw [hheap]; exact hp')
          (by rw [hheap, hclosed]; exact hcl)
          (by
            rw [hheap]
            simp only [List.length_cons] at hlen
            omega)
        rw [hheap, hsent] at this
        exact this

/-! ## The claims -/

/-- C1: for every finite sequence of register and unregister requests that does not register,
unregister, register again and unregister again one and the same connection (no sequence that the
hub receives does: `ServeWS` registers each newly allocated connection once, see
`secondClose_not_sublist_of_registered_once`), `Hub.Run` started on the hub of `NewHub` processes
the whole sequence, and the membership set it ends with holds a connection if and only if the
connection was registered in the sequence and not unregistered afterwards; each member appears
once however many times it was registered, and every member was registered in the sequence. -/
theorem membership_is_registered_minus_unregistered (sched : Hub → List Handle)
    (reqs : List Req) (hreqs : ∀ r ∈ reqs, r.isMembership = true)
    (hclose : ∀ c, ¬ (secondClose c).Sublist reqs) :
    ∃ h', Hub.Run sched reqs NewHub = .ok h' ∧ h'.clients.Nodup ∧
      (∀ c, c ∈ h'.clients ↔ registeredAndKept reqs c) ∧
      ∀ c ∈ h'.clients, Req.register c ∈ reqs := by
  have hpat : ∀ c, ¬ (NewHub.pending c).Sublist reqs := by
    intro c
    have hp : NewHub.pending c = secondClose c := by
      simp [Hub.pending, NewHub, Client.fresh, Chan.make]
    rw [hp]
    exact hclose c
  obtain ⟨h', hrun, hnd, hiff⟩ := Hub.Run_membership sched reqs NewHub hreqs
    (by simp [NewHub]) hpat
  have hiff' : ∀ c, c ∈ h'.clients ↔ registeredAndKept reqs c := by
    intro c
    rw [hiff c]
    simp [NewHub]
  refine ⟨h', hrun, hnd, hiff', fun c hc => ?_⟩
  obtain ⟨pre, post, heq, _⟩ := (hiff' c).mp hc
  rw [heq]
  simp

/-- Witness of C1: connection 0 is registered three times, unregistered and registered again,
connection 1 is registered twice, connection 2 is unregistered without having been registered. -/
theorem membership_is_registered_minus_unregistered_witness :
    ∃ h', Hub.Run (fun h => h.clients)
        [Req.register 0, Req.register 1, Req.register 0, Req.register 0, Req.unregister 0,
          Req.unregister 2, Req.register 0, Req.register 1] NewHub = .ok h' ∧ h'.clients.Nodup ∧
      (∀ c, c ∈ h'.clients ↔ registeredAndKept
        [Req.register 0, Req.register 1, Req.register 0, Req.register 0, Req.unregister 0,
          Req.unregister 2, Req.register 0, Req.register 1] c) ∧
      ∀ c ∈ h'.clients, Req.register c ∈
        [Req.register 0, Req.register 1, Req.register 0, Req.register 0, Req.unregister 0,
          Req.unregister 2, Req.register 0, Req.register 1] :=
  membership_is_registered_minus_unregistered (fun h => h.clients)
    [Req.register 0, Req.register 1, Req.register 0, Req.register 0, Req.unregister 0,
      Req.unregister 2, Req.register 0, Req.register 1] (by decide)
    (by
      intro c hs
      have hm := hs.subset (List.mem_cons_of_mem _ (List.mem_cons_self _ _))
      simp only [List.mem_cons, Req.unregister.injEq, reduceCtorEq, false_or, or_false,
        List.mem_singleton, List.not_mem_nil] at hm
      rcases hm with hm | hm
      · subst hm
        revert hs
        decide
      · subst hm
        revert hs
        decide)

/-- C3: on a well-formed hub (every reachable state is one, `reachable_wf`), processing one
broadcast request in `Hub.Run` does not panic and queues the payload at the
tail of the outbound buffer of every registered connection whose buffer is not full, which stays
registered with an open buffer, however many other registered connections have a full buffer; the
resulting state is the same for every order in which the members of `h.clients` are visited. -/
theorem broadcast_reaches_every_ready_client (h : Hub) (hwf : h.WF) (message : Payload)
    (ord : List Handle) (hord : ord.Perm h.clients) :
    ∃ h', h.runStep ord (Req.broadcast message) = .ok h' ∧
      (∀ c ∈ h.clients, (h.heap c).send.buf.length < 256 →
        (h'.heap c).send.buf = (h.heap c).send.buf ++ [message] ∧
        (h'.heap c).send.closed = false ∧ c ∈ h'.clients) ∧
      ∀ ord2 : List Handle, ord2.Perm h.clients →
        h.runStep ord2 (Req.broadcast message) = .ok h' := by
  obtain ⟨h', hrun, hwf', _, hmem, hheap⟩ := Hub.broadcast_ok h hwf ord hord message
  refine ⟨h', hrun, fun c hc hlen => ?_, fun ord2 hord2 => ?_⟩
  · have hlen' : (h.heap c).send.buf.length < sendCap := hlen
    have hin : c ∈ h'.clients := (hmem c).mpr ⟨hc, Nat.not_le.mpr hlen'⟩
    refine ⟨?_, hwf'.isOpen c hin, hin⟩
    rw [hheap c, if_pos hc]
    simp [Chan.offer, hlen']
  · rw [← hrun]
    exact Hub.fanout_order (fun _ => true) message (fun c h1 => h1.deliver message c) (by simp)
      h hwf ord ord2 hord hord2

/-- Witness of C3 on a hub where one of the three members has a full buffer. -/
theorem broadcast_reaches_every_ready_client_witness :
    ∃ h', demoHub.runStep [0, 1, 2] (Req.broadcast [7]) = .ok h' ∧
      (∀ c ∈ demoHub.clients, (demoHub.heap c).send.buf.length < 256 →
        (h'.heap c).send.buf = (demoHub.heap c).send.buf ++ [[7]] ∧
        (h'.heap c).send.closed = false ∧ c ∈ h'.clients) ∧
      ∀ ord2 : List Handle, ord2.Perm demoHub.clients →
        demoHub.runStep ord2 (Req.broadcast [7]) = .ok h' :=
  broadcast_reaches_every_ready_client demoHub ⟨by decide, by decide, by decide⟩ [7] [0, 1, 2]
    (by decide)

/-- C8: a broadcast with no target changes nothing and raises no error. On an empty membership
set a broadcast request, and on any hub a `BroadcastToType` or `BroadcastToUser` whose role or user
id matches no registered connection, returns normally with the very same state: same membership
set, same buffers, no buffer closed. This holds whether or not the envelope serializes and for
every order of the visit. -/
theorem broadcast_without_target_is_noop (json : Json) (h : Hub) (ord : List Handle) :
    (∀ message : Payload, h.clients = [] → h.runStep ord (Req.broadcast message) = .ok h) ∧
    (∀ (userType : String) (message : Message),
      (∀ c ∈ h.clients, (h.heap c).userType ≠ userType) →
      h.BroadcastToType json ord userType message = .ok h) ∧
    (∀ (userID : String) (message : Message),
      (∀ c ∈ h.clients, (h.heap c).userID ≠ userID) →
      h.BroadcastToUser json ord userID message = .ok h) := by
  refine ⟨fun message hempty => ?_, fun userType message hno => ?_, fun userID message hno => ?_⟩
  · exact Hub.rangeClients_noop _ h (fun c hc => by simp [hempty] at hc) ord
  · unfold Hub.BroadcastToType
    cases json.marshal message with
    | none => rfl
    | some data => exact Hub.rangeClients_noop _ h (fun c hc => by simp [hno c hc]) ord
  · unfold Hub.BroadcastToUser
    cases json.marshal message with
    | none => rfl
    | some data => exact Hub.rangeClients_noop _ h (fun c hc => by simp [hno c hc]) ord

/-- Witness of C8: the empty hub, and the demo hub for a role and a user that nobody has. -/
theorem broadcast_without_target_is_noop_witness :
    NewHub.runStep [] (Req.broadcast [7]) = .ok NewHub ∧
    demoHub.BroadcastToType toyJson [2, 1, 0] "client" demoMsg = .ok demoHub ∧
    demoHub.BroadcastToUser toyJson [2, 1, 0] "dave" demoMsg = .ok demoHub :=
  ⟨(broadcast_without_target_is_noop toyJson NewHub []).1 [7] rfl,
   (broadcast_without_target_is_noop toyJson demoHub [2, 1, 0]).2.1 "client" demoMsg (by decide),
   (broadcast_without_target_is_noop toyJson demoHub [2, 1, 0]).2.2 "dave" demoMsg (by decide)⟩

/-- C2: on a well-formed hub (every reachable state is one, `reachable_wf`), a registered
connection whose outbound buffer holds 256 payloads is,
after `Hub.Run` has processed one broadcast request, out of the membership set, with its buffer
closed and holding what it held (the payload was not queued). From then on, whatever steps the
system takes, it stays out of the membership set, and every later broadcast request,
`BroadcastToType` and `BroadcastToUser` returns normally and leaves its buffer as it is. -/
theorem saturated_client_is_dropped (json : Json) (h : Hub) (hwf : h.WF) (c : Handle)
    (hc : c ∈ h.clients) (hfull : (h.heap c).send.buf.length = 256) (message : Payload)
    (ord : List Handle) (hord : ord.Perm h.clients) :
    ∃ h1, h.runStep ord (Req.broadcast message) = .ok h1 ∧ c ∉ h1.clients ∧
      (h1.heap c).send.closed = true ∧ (h1.heap c).send.buf = (h.heap c).send.buf ∧
      (h1.heap c).send.sent = (h.heap c).send.sent ∧
      ∀ h2, Steps json h1 h2 → c ∉ h2.clients ∧
        (∀ (ord2 : List Handle) (m : Payload), ord2.Perm h2.clients →
          ∃ h3, h2.runStep ord2 (Req.broadcast m) = .ok h3 ∧
            (h3.heap c).send = (h2.heap c).send) ∧
        (∀ (ord2 : List Handle) (userType : String) (m : Message), ord2.Perm h2.clients →
          ∃ h3, h2.BroadcastToType json ord2 userType m = .ok h3 ∧
            (h3.heap c).send = (h2.heap c).send) ∧
        (∀ (ord2 : List Handle) (userID : String) (m : Message), ord2.Perm h2.clients →
          ∃ h3, h2.BroadcastToUser json ord2 userID m = .ok h3 ∧
            (h3.heap c).send = (h2.heap c).send) := by
  obtain ⟨h1, hrun, hwf1, hnext1, hmem1, hheap1⟩ := Hub.broadcast_ok h hwf ord hord message
  have hfull' : ¬ (h.heap c).send.buf.length < sendCap := by
    rw [hfull]
    decide
  have hout1 : c ∉ h1.clients := fun hin => ((hmem1 c).mp hin).2 (Nat.le_of_not_lt hfull')
  have hc1 : h1.heap c = { h.heap c with send := { (h.heap c).send with closed := true } } := by
    rw [hheap1 c, if_pos hc]
    simp [Chan.offer, hfull']
  refine ⟨h1, hrun, hout1, by rw [hc1], by rw [hc1], by rw [hc1], fun h2 hs => ?_⟩
  obtain ⟨hwf2, _, hout2⟩ := Steps.wf_of json hs hwf1
  have hc2 : c ∉ h2.clients := hout2 c (hnext1 ▸ hwf.alloc c hc) hout1
  refine ⟨hc2, fun ord2 m hord2 => ?_, fun ord2 userType m hord2 => ?_,
    fun ord2 userID m hord2 => ?_⟩
  · obtain ⟨h3, hrun3, _, _, _, hheap3⟩ := Hub.broadcast_ok h2 hwf2 ord2 hord2 m
    exact ⟨h3, hrun3, by rw [hheap3 c, if_neg hc2]⟩
  · cases hm : json.marshal m with
    | none => exact ⟨h2, by simp [Hub.BroadcastToType, hm], rfl⟩
    | some data =>
      obtain ⟨h3, hrun3, _, _, _, hheap3⟩ :=
        Hub.BroadcastToType_ok json h2 hwf2 ord2 hord2 userType m data hm
      exact ⟨h3, hrun3, by rw [hheap3 c, if_neg (fun hp => hc2 hp.1)]⟩
  · cases hm : json.marshal m with
    | none => exact ⟨h2, by simp [Hub.BroadcastToUser, hm], rfl⟩
    | some data =>
      obtain ⟨h3, hrun3, _, _, _, hheap3⟩ :=
        Hub.BroadcastToUser_ok json h2 hwf2 ord2 hord2 userID m data hm
      exact ⟨h3, hrun3, by rw [hheap3 c, if_neg (fun hp => hc2 hp.1)]⟩

/-- Witness of C2 on the demo hub, whose client 1 has a full buffer. -/
theorem saturated_client_is_dropped_witness :
    ∃ h1, demoHub.runStep [2, 1, 0] (Req.broadcast [7]) = .ok h1 ∧ 1 ∉ h1.clients ∧
      (h1.heap 1).send.closed = true ∧ (h1.heap 1).send.buf = (demoHub.heap 1).send.buf := by
  obtain ⟨h1, hrun, hout, hcl, hbuf, _⟩ := saturated_client_is_dropped toyJson demoHub
    ⟨by decide, by decide, by decide⟩ 1 (by decide) (by decide) [7] [2, 1, 0] (by decide)
  exact ⟨h1, hrun, hout, hcl, hbuf⟩

/-- C4, as amended: on a well-formed hub, `BroadcastToType(r, envelope)` (resp.
`BroadcastToUser(u, envelope)`) returns normally and queues the serialized envelope on the outbound
buffer of exactly the registered connections whose userType equals r (resp. whose userID equals u)
and whose buffer is not full, which stay registered; a matching registered connection whose buffer
is full gets nothing queued, has its buffer closed and leaves the membership set; the store entry
and the membership of every other connection, and so of every connection that is not registered,
are unchanged; an envelope that does not serialize reaches no connection and changes nothing.
Scenario: with A (dispatcher), B (paramedic), C (paramedic) registered, a paramedic broadcast
reaches B and C only, and after B is unregistered the same broadcast reaches C only. -/
theorem filtered_broadcast_reaches_matching_ready_clients (json : Json) (h : Hub) (hwf : h.WF)
    (ord : List Handle) (hord : ord.Perm h.clients) (message : Message) :
    (json.marshal message = none →
      (∀ userType : String, h.BroadcastToType json ord userType message = .ok h) ∧
      (∀ userID : String, h.BroadcastToUser json ord userID message = .ok h)) ∧
    (∀ data : Payload, json.marshal message = some data →
      (∀ userType : String, ∃ h', h.BroadcastToType json ord userType message = .ok h' ∧
        ∀ c,
          (c ∈ h.clients → (h.heap c).userType = userType → (h.heap c).send.buf.length < 256 →
            (h'.heap c).send.buf = (h.heap c).send.buf ++ [data] ∧
            (h'.heap c).send.closed = false ∧ c ∈ h'.clients) ∧
          (c ∈ h.clients → (h.heap c).userType = userType → 256 ≤ (h.heap c).send.buf.length →
            (h'.heap c).send.buf = (h.heap c).send.buf ∧
            (h'.heap c).send.closed = true ∧ c ∉ h'.clients) ∧
          (¬(c ∈ h.clients ∧ (h.heap c).userType = userType) →
            h'.heap c = h.heap c ∧ (c ∈ h'.clients ↔ c ∈ h.clients))) ∧
      (∀ userID : String, ∃ h', h.BroadcastToUser json ord userID message = .ok h' ∧
        ∀ c,
          (c ∈ h.clients → (h.heap c).userID = userID → (h.heap c).send.buf.length < 256 →
            (h'.heap c).send.buf = (h.heap c).send.buf ++ [data] ∧
            (h'.heap c).send.closed = false ∧ c ∈ h'.clients) ∧
          (c ∈ h.clients → (h.heap c).userID = userID → 256 ≤ (h.heap c).send.buf.length →
            (h'.heap c).send.buf = (h.heap c).send.buf ∧
            (h'.heap c).send.closed = true ∧ c ∉ h'.clients) ∧
          (¬(c ∈ h.clients ∧ (h.heap c).userID = userID) →
            h'.heap c = h.heap c ∧ (c ∈ h'.clients ↔ c ∈ h.clients))) ∧
      (∀ ord0 : List Handle, ord0.Perm scenarioHub.clients →
        ∃ h1 h2, scenarioHub.BroadcastToType json ord0 "paramedic" message = .ok h1 ∧
          (h1.heap 0).send.buf = [] ∧ (h1.heap 1).send.buf = [data] ∧
          (h1.heap 2).send.buf = [data] ∧
          h1.unregister 1 = .ok h2 ∧
          ∀ ord2 : List Handle, ord2.Perm h2.clients →
            ∃ h3, h2.BroadcastToType json ord2 "paramedic" message = .ok h3 ∧
              (h3.heap 0).send.buf = [] ∧ (h3.heap 1).send.buf = [data] ∧
              (h3.heap 2).send.buf = [data, data])) := by
  refine ⟨fun hnone => ⟨fun userType => by simp [Hub.BroadcastToType, hnone],
    fun userID => by simp [Hub.BroadcastToUser, hnone]⟩, fun data hm => ?_⟩
  refine ⟨fun userType => ?_, fun userID => ?_,
    fun ord0 hord0 => scenario_paramedic_broadcast json message data hm ord0 hord0⟩
  · obtain ⟨h', hrun, hwf', _, hmem, hheap⟩ :=
      Hub.BroadcastToType_ok json h hwf ord hord userType message data hm
    refine ⟨h', hrun, fun c => ⟨fun hc ht hlen => ?_, fun hc ht hlen => ?_, fun hno => ?_⟩⟩
    · have hlen' : (h.heap c).send.buf.length < sendCap := hlen
      have hin : c ∈ h'.clients := (hmem c).mpr ⟨hc, fun hp => Nat.not_le.mpr hlen' hp.2⟩
      refine ⟨?_, hwf'.isOpen c hin, hin⟩
      rw [hheap c, if_pos ⟨hc, ht⟩]
      simp [Chan.offer, hlen']
    · have hlen' : ¬ (h.heap c).send.buf.length < sendCap := Nat.not_lt.mpr hlen
      refine ⟨?_, ?_, fun hin => ((hmem c).mp hin).2 ⟨ht, hlen⟩⟩
      · rw [hheap c, if_pos ⟨hc, ht⟩]
        simp [Chan.offer, hlen']
      · rw [hheap c, if_pos ⟨hc, ht⟩]
        simp [Chan.offer, hlen']
    · refine ⟨by rw [hheap c, if_neg hno], ?_⟩
      rw [hmem c]
      exact ⟨fun hp => hp.1, fun hp => ⟨hp, fun hq => hno ⟨hp, hq.1⟩⟩⟩
  · obtain ⟨h', hrun, hwf', _, hmem, hheap⟩ :=
      Hub.BroadcastToUser_ok json h hwf ord hord userID message data hm
    refine ⟨h', hrun, fun c => ⟨fun hc ht hlen => ?_, fun hc ht hlen => ?_, fun hno => ?_⟩⟩
    · have hlen' : (h.heap c).send.buf.length < sendCap := hlen
      have hin : c ∈ h'.clients := (hmem c).mpr ⟨hc, fun hp => Nat.not_le.mpr hlen' hp.2⟩
      refine ⟨?_, hwf'.isOpen c hin, hin⟩
      rw [hheap c, if_pos ⟨hc, ht⟩]
      simp [Chan.offer, hlen']
    · have hlen' : ¬ (h.heap c).send.buf.length < sendCap := Nat.not_lt.mpr hlen
      refine ⟨?_, ?_, fun hin => ((hmem c).mp hin).2 ⟨ht, hlen⟩⟩
      · rw [hheap c, if_pos ⟨hc, ht⟩]
        simp [Chan.offer, hlen']
      · rw [hheap c, if_pos ⟨hc, ht⟩]
        simp [Chan.offer, hlen']
    · refine ⟨by rw [hheap c, if_neg hno], ?_⟩
      rw [hmem c]
      exact ⟨fun hp => hp.1, fun hp => ⟨hp, fun hq => hno ⟨hp, hq.1⟩⟩⟩

/-- Witness of the amended C4 on the demo hub: of the two paramedics, client 2 is served and
stays, client 1, whose buffer is full, leaves. -/
theorem filtered_broadcast_reaches_matching_ready_clients_witness :
    ∃ h', demoHub.BroadcastToType toyJson [2, 1, 0] "paramedic" demoMsg = .ok h' ∧
      2 ∈ h'.clients ∧ 1 ∉ h'.clients ∧ h'.heap 0 = demoHub.heap 0 := by
  obtain ⟨h', hrun, hall⟩ := ((filtered_broadcast_reaches_matching_ready_clients toyJson demoHub
    ⟨by decide, by decide, by decide⟩ [2, 1, 0] (by decide) demoMsg).2 _ rfl).1 "paramedic"
  exact ⟨h', hrun, ((hall 2).1 (by decide) (by decide) (by decide)).2.2,
    ((hall 1).2.1 (by decide) (by decide) (by decide)).2.2, ((hall 0).2.2 (by decide)).1⟩

/-- C4 as stated fails: client 1 of the demo hub is registered and its userType is the role of
the broadcast, yet `BroadcastToType` queues nothing on its buffer, and the call changes its
membership: the buffer is full, so the client is closed and removed. -/
theorem BroadcastToType_skips_full_matching_client :
    (1 : Handle) ∈ demoHub.clients ∧ (demoHub.heap 1).userType = "paramedic" ∧
    ∃ h', demoHub.BroadcastToType toyJson [2, 1, 0] "paramedic" demoMsg = .ok h' ∧
      (h'.heap 1).send.buf = (demoHub.heap 1).send.buf ∧ (h'.heap 1).send.closed = true ∧
      1 ∉ h'.clients := by
  refine ⟨by decide, by decide, ?_⟩
  obtain ⟨h', hrun, _, _, hmem, hheap⟩ := Hub.BroadcastToType_ok toyJson demoHub
    ⟨by decide, by decide, by decide⟩ [2, 1, 0] (by decide) "paramedic" demoMsg _ rfl
  refine ⟨h', hrun, ?_, ?_, fun hin => ((hmem 1).mp hin).2 (by decide)⟩
  · rw [hheap 1, if_pos (by decide)]
    rfl
  · rw [hheap 1, if_pos (by decide)]
    rfl

/-- C5: for every inbound frame that parses as a `Message` and every connection, what `readPump`
submits for broadcast is the serialization of the envelope that has the type and data of the frame
and the userID and userType of the connection, whatever sender fields the frame carried (nothing
is submitted when that envelope does not serialize); hence two frames that parse to the same type
and data are relayed alike. -/
theorem readPump_stamps_sender_identity (json : Json) (c : Client) (frame : Payload)
    (msg : Message) (hparse : json.unmarshal frame = some msg) :
    c.readPumpStep json (ReadResult.frame frame) =
      (match json.marshal { Type_ := msg.Type_, Data := msg.Data,
                            UserID := c.userID, UserType := c.userType } with
       | some data => ReadAction.submit data
       | none => ReadAction.skip) ∧
    ∀ (frame2 : Payload) (msg2 : Message), json.unmarshal frame2 = some msg2 →
      msg2.Type_ = msg.Type_ → msg2.Data = msg.Data →
      c.readPumpStep json (ReadResult.frame frame2) =
        c.readPumpStep json (ReadResult.frame frame) := by
  have key : ∀ (f : Payload) (m : Message), json.unmarshal f = some m →
      c.readPumpStep json (ReadResult.frame f) =
      (match json.marshal { Type_ := m.Type_, Data := m.Data,
                            UserID := c.userID, UserType := c.userType } with
       | some data => ReadAction.submit data
       | none => ReadAction.skip) := by
    intro f m hf
    simp only [Client.readPumpStep, hf, Client.stamp]
  refine ⟨key frame msg hparse, fun frame2 msg2 hparse2 ht hd => ?_⟩
  rw [key frame msg hparse, key frame2 msg2 hparse2, ht, hd]

/-- Witness of C5: a frame of the toy codec, which carries forged sender fields. -/
theorem readPump_stamps_sender_identity_witness :
    (Client.fresh "carol" "paramedic").readPumpStep toyJson (ReadResult.frame [5]) =
      (match toyJson.marshal { Type_ := "chat", Data := Value.number 5,
                               UserID := "carol", UserType := "paramedic" } with
       | some data => ReadAction.submit data
       | none => ReadAction.skip) :=
  (readPump_stamps_sender_identity toyJson (Client.fresh "carol" "paramedic") [5]
    { Type_ := "chat", Data := Value.number 5, UserID := "mallory", UserType := "dispatcher" }
    rfl).1

/-- C6 fails on the code: `writePump` does not look at the result of `WriteMessage`. With two
payloads queued, when the write of the first fails the pump does not return and the transport is
not closed; its next iteration writes the second payload. -/
theorem writePump_continues_after_failed_write :
    ∃ cl1 cl2, twoQueued.writePumpStep false = some cl1 ∧
      cl1.conn.calls = [(Frame.text [1], false)] ∧ cl1.writerDone = false ∧
      cl1.conn.closed = false ∧ cl1.writePumpStep true = some cl2 ∧
      cl2.conn.calls = [(Frame.text [1], false), (Frame.text [2], true)] :=
  ⟨_, _, rfl, rfl, rfl, rfl, rfl, rfl⟩

/-- C9 fails on the code: `BroadcastToUser` is a method that the caller runs itself, it sends
nothing on the channels of `Hub.Run`; on the demo hub it visits the map, closes the full buffer of
client 1 and deletes client 1 from the map. -/
theorem BroadcastToUser_removes_member_outside_Run :
    (1 : Handle) ∈ demoHub.clients ∧
    ∃ h', demoHub.BroadcastToUser toyJson [2, 1, 0] "bob" demoMsg = .ok h' ∧
      1 ∉ h'.clients ∧ (h'.heap 1).send.closed = true := by
  refine ⟨by decide, ?_⟩
  obtain ⟨h', hrun, _, _, hmem, hheap⟩ := Hub.BroadcastToUser_ok toyJson demoHub
    ⟨by decide, by decide, by decide⟩ [2, 1, 0] (by decide) "bob" demoMsg _ rfl
  refine ⟨h', hrun, fun hin => ((hmem 1).mp hin).2 (by decide), ?_⟩
  rw [hheap 1, if_pos (by decide)]
  rfl

/-- C10: in every state reachable from the hub of `NewHub` by `ServeWS` calls (each registers a
newly allocated connection with an open buffer), unregister requests, broadcast requests,
`BroadcastToType` calls, `BroadcastToUser` calls and writer pump iterations, every member has an
open outbound buffer, and the closed buffers are exactly those of the connections that were
registered and have left the membership set. Hence every step from such a state returns normally:
none sends on a closed buffer or closes a buffer twice. A step closes the buffer of a connection
exactly when the connection leaves the membership set, and a closed buffer stays closed and out
of the membership set, so each buffer is closed at most once. -/
theorem reachable_hub_never_panics (json : Json) (h : Hub) (hr : Reachable json h) :
    (∀ c ∈ h.clients, (h.heap c).send.closed = false) ∧
    (∀ c, (h.heap c).send.closed = true ↔ (c < h.next ∧ c ∉ h.clients)) ∧
    ∀ e : Event, e.enabled h → ∃ h', h.apply json e = .ok h' ∧
      ∀ c, (((h.heap c).send.closed = false ∧ (h'.heap c).send.closed = true) ↔
              (c ∈ h.clients ∧ c ∉ h'.clients)) ∧
           ((h.heap c).send.closed = true →
              (h'.heap c).send.closed = true ∧ c ∉ h'.clients) := by
  have hinv : h.Inv := Steps.inv json hr NewHub_inv
  refine ⟨hinv.wf.isOpen, hinv.closedIff, fun e hen => ?_⟩
  obtain ⟨h', happ, _, _, heff⟩ := Hub.apply_ok json e h hinv.wf hen
  refine ⟨h', happ, fun c => ?_⟩
  have hout : (h.heap c).send.closed = true → c < h.next ∧ c ∉ h.clients :=
    (hinv.closedIff c).mp
  cases heff c with
  | same heq hm _ =>
    rw [heq, hm]
    refine ⟨⟨fun hp => ?_, fun hp => absurd hp.1 hp.2⟩, fun hcl => ⟨hcl, (hout hcl).2⟩⟩
    rw [hp.1] at hp
    exact absurd hp.2 (by simp)
  | enqueue data hc hc' _ heq =>
    have hopen := hinv.wf.isOpen c hc
    rw [heq]
    refine ⟨⟨fun hp => ?_, fun hp => absurd hc' hp.2⟩, fun hcl => ?_⟩
    · have h2 : (h.heap c).send.closed = true := hp.2
      rw [hopen] at h2
      exact absurd h2 (by simp)
    · rw [hopen] at hcl
      exact absurd hcl (by simp)
  | drop hc hc' heq =>
    have hopen := hinv.wf.isOpen c hc
    rw [heq]
    refine ⟨⟨fun _ => ⟨hc, hc'⟩, fun _ => ⟨hopen, rfl⟩⟩, fun hcl => ?_⟩
    rw [hopen] at hcl
    exact absurd hcl (by simp)
  | alloc userID userType hcn _ hc' heq =>
    have hnot : c ∉ h.clients := fun hc => Nat.lt_irrefl _ (hcn ▸ hinv.wf.alloc c hc)
    rw [heq]
    refine ⟨⟨fun hp => ?_, fun hp => absurd hp.1 hnot⟩, fun hcl => ?_⟩
    · simp [Client.fresh, Chan.make] at hp
    · exact absurd (hout hcl).1 (by rw [hcn]; exact Nat.lt_irrefl _)
  | pump wok hstep hm _ =>
    obtain ⟨_, _, hcl', _⟩ := Client.pumpInv_step wok (hinv.pump c) hstep
    rw [hcl', hm]
    refine ⟨⟨fun hp => ?_, fun hp => absurd hp.1 hp.2⟩, fun hcl => ⟨hcl, (hout hcl).2⟩⟩
    rw [hp.1] at hp
    exact absurd hp.2 (by simp)

/-- Witness of C10: the scenario hub, reached by three `ServeWS` calls. -/
theorem reachable_hub_never_panics_witness :
    (∀ c ∈ scenarioHub.clients, (scenarioHub.heap c).send.closed = false) ∧
    ∃ h', scenarioHub.apply toyJson (Event.unregister 1) = .ok h' ∧
      (h'.heap 1).send.closed = true := by
  have hr : Reachable toyJson scenarioHub :=
    Steps.tail (Event.serveWS true "C" "paramedic")
      (Steps.tail (Event.serveWS true "B" "paramedic")
        (Steps.tail (Event.serveWS true "A" "dispatcher") (Steps.refl NewHub) trivial rfl)
        trivial rfl)
      trivial rfl
  obtain ⟨hopen, _, hstep⟩ := reachable_hub_never_panics toyJson scenarioHub hr
  obtain ⟨h', happ, hall⟩ := hstep (Event.unregister 1) trivial
  refine ⟨hopen, h', happ, (((hall 1).1).mpr ⟨by decide, ?_⟩).2⟩
  have : h' = (scenarioHub.delete 1).setSend 1
      { (scenarioHub.heap 1).send with closed := true } := by
    have h2 : scenarioHub.apply toyJson (Event.unregister 1) = .ok
        ((scenarioHub.delete 1).setSend 1 { (scenarioHub.heap 1).send with closed := true }) :=
      rfl
    rw [happ] at h2
    exact Except.ok.inj h2
  rw [this]
  decide

/-- C7: in every reachable state and for every connection, the payloads that `writePump` has
handed to `WriteMessage`, followed by the payloads still in the outbound buffer, are the payloads
queued on the buffer by the broadcasts, in the order of queuing. So the pump writes text frames
only, the k-th of them carrying the k-th payload queued: when P1 was queued before P2 and P2 has
been written, P1 was written before it. Once the pump has returned, its calls were one text frame
per payload queued, in order, then one close frame; and once the buffer is closed, scheduling the
pump once more than there are payloads left makes it return in that way. When no call failed, the
frames on the transport are the frames of the calls. -/
theorem writer_emits_enqueued_in_order (json : Json) (h : Hub) (hr : Reachable json h)
    (c : Handle) :
    (h.heap c).conn.texts ++ (h.heap c).send.buf = (h.heap c).send.sent ∧
    (h.heap c).conn.calls.map Prod.fst =
      (h.heap c).conn.texts.map Frame.text ++
        (if (h.heap c).writerDone = true then [Frame.close] else []) ∧
    (∀ (i j : Nat) (P1 P2 : Payload), i < j → (h.heap c).send.sent[i]? = some P1 →
      (h.heap c).send.sent[j]? = some P2 → j < (h.heap c).conn.texts.length →
      (h.heap c).conn.texts[i]? = some P1 ∧ (h.heap c).conn.texts[j]? = some P2) ∧
    ((h.heap c).writerDone = true →
      (h.heap c).conn.calls.map Prod.fst =
        (h.heap c).send.sent.map Frame.text ++ [Frame.close]) ∧
    ((h.heap c).send.closed = true → ∀ woks : List Bool,
      woks.length = (h.heap c).send.buf.length + 1 →
      ((h.writePumpRun c woks).heap c).writerDone = true ∧
      ((h.writePumpRun c woks).heap c).conn.calls.map Prod.fst =
        (h.heap c).send.sent.map Frame.text ++ [Frame.close]) ∧
    ((∀ x ∈ (h.heap c).conn.calls, x.2 = true) →
      (h.heap c).conn.wire = (h.heap c).conn.calls.map Prod.fst) := by
  have hinv : h.Inv := Steps.inv json hr NewHub_inv
  have hp := hinv.pump c
  refine ⟨hp.fifo, hp.frames, ?_, ?_, ?_, ?_⟩
  · intro i j P1 P2 hij h1 h2 hj
    have hi : i < (h.heap c).conn.texts.length := Nat.lt_trans hij hj
    rw [← hp.fifo] at h1 h2
    rw [List.getElem?_append_left hi] at h1
    rw [List.getElem?_append_left hj] at h2
    exact ⟨h1, h2⟩
  · intro hd
    have h1 := hp.frames
    have h2 := hp.fifo
    rw [(hp.done hd).1, List.append_nil] at h2
    rw [h1, h2]
    simp [hd]
  · intro hcl woks hlen
    exact Hub.writePumpRun_drains c woks h hp hcl hlen
  · intro hall
    unfold Conn.wire
    rw [List.filter_eq_self.mpr (fun x hx => hall x hx)]

/-- Witness of C7: the scenario hub after one broadcast and one iteration of the writer pump of
client 1, which has written the payload. -/
theorem writer_emits_enqueued_in_order_witness :
    (relayedHub.heap 1).conn.texts = [[7]] ∧
    (relayedHub.heap 1).conn.texts ++ (relayedHub.heap 1).send.buf =
      (relayedHub.heap 1).send.sent := by
  have hr : Reachable toyJson relayedHub :=
    Steps.tail (Event.writePump 1 true)
      (Steps.tail (Event.broadcast [2, 1, 0] [7])
        (Steps.tail (Event.serveWS true "C" "paramedic")
          (Steps.tail (Event.serveWS true "B" "paramedic")
            (Steps.tail (Event.serveWS true "A" "dispatcher") (Steps.refl NewHub) trivial rfl)
            trivial rfl)
          trivial rfl)
        (by decide : [2, 1, 0].Perm scenarioHub.clients) rfl)
      trivial rfl
  exact ⟨by decide, (writer_emits_enqueued_in_order toyJson relayedHub hr 1).1⟩

end WsHub
